import Mathlib

/-!
Verification of the `SVGSmartColorizer` class (src/index.js of svg-smart-colorizer).

The DOM is embedded as a tree of elements carrying a tag name, an attribute list
and a child list.  Live elements are addressed by their path (list of child
indices) from the root that is being processed; mutation is modelled by
rebuilding the tree along a path.  `Math.random` outcomes are supplied by an
oracle (the palette index chosen by each `generateRandomColor` call and the
boolean outcome of each `Math.random() < gradientProbability` test), and
`Date.now()` is an explicit parameter, so every operation is a pure function.
-/

namespace SvgSmart

/-- A DOM element: tag name, attributes in document order, children. -/
inductive Node where
  | mk (tag : String) (attrs : List (String × String)) (children : List Node)

def Node.tag : Node → String
  | .mk t _ _ => t

def Node.attrs : Node → List (String × String)
  | .mk _ a _ => a

def Node.children : Node → List Node
  | .mk _ _ cs => cs

def Node.beq : Node → Node → Bool
  | .mk t a cs, .mk t2 a2 cs2 => t == t2 && a == a2 && go cs cs2
where go : List Node → List Node → Bool
  | [], [] => true
  | c :: cs, c2 :: cs2 => Node.beq c c2 && go cs cs2
  | _, _ => false

mutual

theorem Node.beq_iff : ∀ (a b : Node), (Node.beq a b = true) ↔ a = b
  | .mk t a cs, .mk t2 a2 cs2 => by
    simp only [Node.beq, Bool.and_eq_true, beq_iff_eq, Node.mk.injEq]
    constructor
    · rintro ⟨⟨h1, h2⟩, h3⟩
      exact ⟨h1, h2, (Node.beq_go_iff cs cs2).mp h3⟩
    · rintro ⟨h1, h2, h3⟩
      exact ⟨⟨h1, h2⟩, (Node.beq_go_iff cs cs2).mpr h3⟩

theorem Node.beq_go_iff : ∀ (cs cs2 : List Node), (Node.beq.go cs cs2 = true) ↔ cs = cs2
  | [], [] => by simp [Node.beq.go]
  | [], _ :: _ => by simp [Node.beq.go]
  | _ :: _, [] => by simp [Node.beq.go]
  | c :: cs, c2 :: cs2 => by
    simp only [Node.beq.go, Bool.and_eq_true, List.cons.injEq]
    rw [Node.beq_iff c c2, Node.beq_go_iff cs cs2]

end

instance : DecidableEq Node := fun a b => decidable_of_iff _ (Node.beq_iff a b)

/-- A path from the processed root to a descendant element: child indices. -/
abbrev Path := List Nat

/-- `element.getAttribute(k)`: the attribute value, or null (`none`) when absent. -/
def getAttr (n : Node) (k : String) : Option String :=
  (n.attrs.find? (fun a => a.1 == k)).map (·.2)

/-- `element.setAttribute(k, v)` on an attribute list: replace the existing entry
    in place, else append (attribute names are unique in a DOM attribute map). -/
def setAttrList : List (String × String) → String → String → List (String × String)
  | [], k, v => [(k, v)]
  | x :: rest, k, v => if x.1 == k then (x.1, v) :: rest else x :: setAttrList rest k v

/-- Whether an attribute list declares the name `k`. -/
def hasKey (attrs : List (String × String)) (k : String) : Bool :=
  attrs.any (fun x => x.1 == k)

/-- List-level `getAttribute`. -/
def findVal (attrs : List (String × String)) (k : String) : Option String :=
  (attrs.find? (fun x => x.1 == k)).map (·.2)

def setAttr (k v : String) : Node → Node
  | .mk t a cs => .mk t (setAttrList a k v) cs

def removeKey (attrs : List (String × String)) (k : String) : List (String × String) :=
  attrs.filter (fun x => !(x.1 == k))

/-- `element.removeAttribute(k)`. -/
def removeAttr (k : String) : Node → Node
  | .mk t a cs => .mk t (removeKey a k) cs

/-- The element addressed by a path, if the path is valid. -/
def nodeAt : Node → Path → Option Node
  | n, [] => some n
  | n, i :: p =>
    match n.children.get? i with
    | some c => nodeAt c p
    | none => none

/-- Rewrite one list entry in place. -/
def modIdx {α : Type} : List α → Nat → (α → α) → List α
  | [], _, _ => []
  | c :: cs, 0, f => f c :: cs
  | c :: cs, i + 1, f => c :: modIdx cs i f

/-- Mutate the element addressed by a path (identity on an invalid path). -/
def modAt : Node → Path → (Node → Node) → Node
  | n, [], f => f n
  | .mk t a cs, i :: p, f => .mk t a (modIdx cs i (fun c => modAt c p f))

/-- `child.remove()` for the child addressed by a (nonempty) path. -/
def removeAt : Node → Path → Node
  | n, [] => n
  | .mk t a cs, i :: p =>
    match p with
    | [] => .mk t a (cs.eraseIdx i)
    | j :: q => .mk t a (modIdx cs i (fun c => removeAt c (j :: q)))

/-- `parent.insertBefore(child, parent.firstChild)`. -/
def insertFirst (child : Node) : Node → Node
  | .mk t a cs => .mk t a (child :: cs)

/-- `parent.appendChild(child)` at the element addressed by a path. -/
def appendChildAt (root : Node) (q : Path) (child : Node) : Node :=
  modAt root q (fun n => .mk n.tag n.attrs (n.children ++ [child]))

/-- `querySelectorAll` for a tag-name selector: document-order (pre-order) paths of
    the descendants whose tag satisfies `sel`. -/
def subMatches (sel : String → Bool) : Node → List Path
  | .mk _ _ cs => go cs 0
where go : List Node → Nat → List Path
  | [], _ => []
  | c :: cs, i =>
    (if sel c.tag then [[i]] else []) ++ (subMatches sel c).map (i :: ·) ++ go cs (i + 1)

/-- The selector `'path, rect, circle, polygon, polyline, line, ellipse'`. -/
def shapeTag (t : String) : Bool :=
  t == "path" || t == "rect" || t == "circle" || t == "polygon" || t == "polyline" ||
    t == "line" || t == "ellipse"

/-- The selector `'path, rect, circle, polygon, polyline, line, ellipse, g'`. -/
def withGTag (t : String) : Bool :=
  shapeTag t || t == "g"

def defsTag (t : String) : Bool := t == "defs"

/-- The ancestor-or-self paths of `p`, nearest first (the element itself, then its
    parent, and so on up to the root). -/
def ancestorPaths (p : Path) : List Path :=
  (List.range (p.length + 1)).reverse.map (fun k => p.take k)

/-- `element.closest('g[k]')`: the nearest ancestor-or-self `g` element that declares
    attribute `k` (with any value), walking the parent chain of `p` in `root`. -/
def closestGAttr (root : Node) (p : Path) (k : String) : Option Path :=
  (ancestorPaths p).find? (fun q =>
    match nodeAt root q with
    | some n => n.tag == "g" && (getAttr n k).isSome
    | none => false)

/-- The JS test `v && v !== 'none' && v !== 'transparent'` applied to a
    `getAttribute` result; null and the empty string are falsy. -/
def isRealColor : Option String → Bool
  | none => false
  | some v => !(v == "") && !(v == "none") && !(v == "transparent")

/-- The configuration fields that influence the colouring logic.
    `gradientProbability` only feeds the `Math.random() < p` coin, which the
    oracle supplies directly, and `debug` only gates logging. -/
structure Config where
  colorPalette : List String
  preserveLinearStyle : Bool
  independentColors : Bool

/-- Outcomes of the `Math.random` draws: `pick k` is `floor(random * palette.length)`
    for the k-th `generateRandomColor` call, `grad k` the boolean outcome of the k-th
    `Math.random() < gradientProbability` test. -/
structure Oracle where
  pick : Nat → Nat
  grad : Nat → Bool

/-- The `fromParent` test of `shouldProcessElementColor`: whether the nearest
    `g[k]` ancestor of the element at `p` carries a non-sentinel value for `k`. -/
def parentRealColor (root : Node) (p : Path) (k : String) : Bool :=
  match closestGAttr root p k with
  | some q =>
    match nodeAt root q with
    | some parentG => isRealColor (getAttr parentG k)
    | none => false
  | none => false

/-- The `hasStroke` test inside `shouldProcessElementColor`: a non-sentinel own
    stroke, or a nearest `g[stroke]` ancestor whose stroke value is non-sentinel. -/
def hasStrokeHere (root : Node) (p : Path) (element : Node) : Bool :=
  isRealColor (getAttr element "stroke") ||
    (match closestGAttr root p "stroke" with
     | some q =>
       match nodeAt root q with
       | some parentG => isRealColor (getAttr parentG "stroke")
       | none => false
     | none => false)

/-- `shouldProcessElementColor(element, attribute)`, for the element at path `p`. -/
def shouldProcessElementColor (cfg : Config) (filt : Option (Node → Bool))
    (root : Node) (p : Path) (attrName : String) : Bool :=
  match nodeAt root p with
  | none => false
  | some element =>
    if (match filt with | some f => !(f element) | none => false) then false
    else
      let ownValue := getAttr element attrName
      if isRealColor ownValue then true
      else
        let fromParent :=
          match closestGAttr root p attrName with
          | some q =>
            match nodeAt root q with
            | some parentG => isRealColor (getAttr parentG attrName)
            | none => false
          | none => false
        if fromParent then true
        else if attrName == "fill" then
          if hasStrokeHere root p element && cfg.preserveLinearStyle then false
          else true
        else false

/-- `applyColorToElement(element, attribute, color)`: write onto the nearest
    `g[attrName]` ancestor when the element's own value is absent or a sentinel
    and such an ancestor exists, otherwise onto the element itself. -/
def applyColorToElement (root : Node) (p : Path) (attrName color : String) : Node :=
  let originalValue := (nodeAt root p).bind (fun el => getAttr el attrName)
  if !(isRealColor originalValue) then
    match closestGAttr root p attrName with
    | some parentG => modAt root parentG (setAttr attrName color)
    | none => modAt root p (setAttr attrName color)
  else
    modAt root p (setAttr attrName color)

/-- Decimal digits of `n`, least significant first; the first argument is fuel so
    that the recursion is structural (`n` itself is always enough fuel). -/
def digitsLE : Nat → Nat → List Nat
  | 0, _ => []
  | fuel + 1, n => if n == 0 then [] else n % 10 :: digitsLE fuel (n / 10)

/-- The embedding of JavaScript number-to-string for the naturals the library
    interpolates into identifiers. -/
def natToStr (n : Nat) : String :=
  if n == 0 then "0" else String.mk ((digitsLE n n).reverse.map Nat.digitChar)

/-- `generateRandomColor()`: sample the palette; a configured validator that
    rejects the sample substitutes the fixed fallback.  Returns the colour and
    the advanced pick counter. -/
def generateRandomColor (cfg : Config) (validator : Option (String → Bool)) (o : Oracle)
    (k : Nat) : String × Nat :=
  let colors := cfg.colorPalette
  let randomColor := colors.getD (o.pick k % colors.length) ""
  match validator with
  | some val => (if !(val randomColor) then "#409eff" else randomColor, k + 1)
  | none => (randomColor, k + 1)

structure GradientData where
  gradient : Node
  url : String
deriving DecidableEq

/-- `generateRandomGradient(id)` at time `now` (`Date.now()`): two palette samples,
    a two-stop diagonal linearGradient definition whose id is
    `gradient-${id}-${Date.now()}`, and the `url(#...)` reference token. -/
def generateRandomGradient (cfg : Config) (validator : Option (String → Bool)) (o : Oracle)
    (k : Nat) (id : String) (now : Nat) : GradientData × Nat :=
  let r1 := generateRandomColor cfg validator o k
  let r2 := generateRandomColor cfg validator o r1.2
  let gradientId := "gradient-" ++ id ++ "-" ++ natToStr now
  let stop1 : Node := .mk "stop" [("offset", "0%"), ("stop-color", r1.1)] []
  let stop2 : Node := .mk "stop" [("offset", "100%"), ("stop-color", r2.1)] []
  ({ gradient := .mk "linearGradient"
       [("id", gradientId), ("x1", "0%"), ("y1", "0%"), ("x2", "100%"), ("y2", "100%")]
       [stop1, stop2],
     url := "url(#" ++ gradientId ++ ")" }, r2.2)

/-- One saved per-element record of `saveOriginalState`. -/
structure ElemRecord where
  index : Nat
  tagName : String
  fill : Option String
  stroke : Option String
  style : Option String
deriving DecidableEq

/-- One saved snapshot: per-element records plus the deep clone of the first defs
    container (or `none`). -/
structure OriginalState where
  elements : List ElemRecord
  defs : Option Node
deriving DecidableEq

/-- `this.svgStates`: the map from svg id to saved snapshot. -/
abbrev Store := List (String × OriginalState)

def storeFind (store : Store) (svgId : String) : Option OriginalState :=
  (store.find? (fun e => e.1 == svgId)).map (·.2)

/-- `svgElement.querySelector('defs')`: the first defs container in document order. -/
def firstDefsPath (root : Node) : Option Path :=
  (subMatches defsTag root).head?

def firstDefsNode (root : Node) : Option Node :=
  (firstDefsPath root).bind (nodeAt root)

/-- The per-element records taken by `saveOriginalState`. -/
def recordsOf (root : Node) : List ElemRecord :=
  (subMatches withGTag root).enum.map (fun ip =>
    match nodeAt root ip.2 with
    | some el =>
      { index := ip.1, tagName := el.tag, fill := getAttr el "fill",
        stroke := getAttr el "stroke", style := getAttr el "style" }
    | none => { index := ip.1, tagName := "", fill := none, stroke := none, style := none })

/-- `saveOriginalState(svgElement, svgId)`: first write wins. -/
def saveOriginalState (store : Store) (root : Node) (svgId : String) : Store :=
  if (storeFind store svgId).isSome then store
  else (svgId, { elements := recordsOf root, defs := firstDefsNode root }) :: store

/-- The events the class emits (listeners are plain observers, so the model
    records the emitted events in order). -/
inductive Event where
  | colorApplied (path : Path) (attrName : String) (color : String) (index : Option Nat)
  | errorEv (message : String) (index : Option Nat)
  | completeEv (processedCount : Nat) (totalCount : Nat)
  | resetEv (svgId : String)
deriving DecidableEq

/-- `element.id`: the id attribute, or the empty string. -/
def idOf (n : Node) : String :=
  (getAttr n "id").getD ""

def toLowerStr (s : String) : String :=
  String.mk (s.data.map Char.toLower)

/-- `createDefsElement(svgElement)`: insert an empty defs as the first child. -/
def createDefsElement : Node → Node
  | .mk t a cs => .mk t a (Node.mk "defs" [] [] :: cs)

/-- `svgElement.querySelector('defs') || this.createDefsElement(svgElement)`. -/
def ensureDefs (root : Node) : Node :=
  match firstDefsPath root with
  | some _ => root
  | none => createDefsElement root

/-- Loop state of the element loop of `applyRandomColors`: current tree, colour
    pick counter, gradient coin counter, events emitted so far, processedCount. -/
structure PassState where
  tree : Node
  k : Nat
  g : Nat
  events : List Event
  processedCount : Nat
deriving DecidableEq

/-- One iteration of the element loop of `applyRandomColors` (the per-element try
    block).  In the source, `fillColor` is declared with `let`/`const` inside the
    `if (shouldProcessFill)` block, so the stroke branch taken when
    `independentColors` is false reads a name that is not in scope: JavaScript
    throws a ReferenceError, which the per-element catch turns into an error
    event, and `processedCount++` is skipped for that element. -/
def processShape (cfg : Config) (filt : Option (Node → Bool)) (validator : Option (String → Bool))
    (o : Oracle) (svgId : String) (now : Nat) (defsPath : Path) (index : Nat) (p : Path)
    (st : PassState) : PassState :=
  let shouldProcessFill := shouldProcessElementColor cfg filt st.tree p "fill"
  let shouldProcessStroke := shouldProcessElementColor cfg filt st.tree p "stroke"
  let afterFill : PassState :=
    if shouldProcessFill then
      if o.grad st.g then
        let rg := generateRandomGradient cfg validator o st.k
          (svgId ++ "-fill-" ++ natToStr index) now
        let t1 := appendChildAt st.tree defsPath rg.1.gradient
        { tree := applyColorToElement t1 p "fill" rg.1.url, k := rg.2, g := st.g + 1,
          events := st.events ++ [Event.colorApplied p "fill" rg.1.url none],
          processedCount := st.processedCount }
      else
        let rc := generateRandomColor cfg validator o st.k
        { tree := applyColorToElement st.tree p "fill" rc.1, k := rc.2, g := st.g + 1,
          events := st.events ++ [Event.colorApplied p "fill" rc.1 none],
          processedCount := st.processedCount }
    else st
  if shouldProcessStroke then
    if cfg.independentColors then
      let rc := generateRandomColor cfg validator o afterFill.k
      { tree := applyColorToElement afterFill.tree p "stroke" rc.1, k := rc.2, g := afterFill.g,
        events := afterFill.events ++ [Event.colorApplied p "stroke" rc.1 none],
        processedCount := afterFill.processedCount + 1 }
    else
      { afterFill with
        events := afterFill.events ++
          [Event.errorEv "ReferenceError: fillColor is not defined" (some index)] }
  else
    { afterFill with processedCount := afterFill.processedCount + 1 }

/-- The element loop of `applyRandomColors` over the enumerated shape elements. -/
def applyPass (cfg : Config) (filt : Option (Node → Bool)) (validator : Option (String → Bool))
    (o : Oracle) (svgId : String) (now : Nat) (defsPath : Path) :
    List (Nat × Path) → PassState → PassState
  | [], st => st
  | ip :: rest, st =>
    applyPass cfg filt validator o svgId now defsPath rest
      (processShape cfg filt validator o svgId now defsPath ip.1 ip.2 st)

structure ApplyResult where
  tree : Node
  store : Store
  ok : Bool
  events : List Event
deriving DecidableEq

/-- `applyRandomColors(svgElement)` at time `now`; `randSuffix` stands for the
    `Math.random().toString(36).substr(2, 9)` part of a generated id.  Note the
    generated id is used only as the store key: it is never assigned to the
    element. -/
def applyRandomColors (cfg : Config) (filt : Option (Node → Bool))
    (validator : Option (String → Bool)) (o : Oracle) (now : Nat) (randSuffix : String)
    (store : Store) (svgElement : Node) : ApplyResult :=
  if !(toLowerStr svgElement.tag == "svg") then
    { tree := svgElement, store := store, ok := false,
      events := [Event.errorEv "invalid svg element" none] }
  else
    let svgId :=
      if idOf svgElement == "" then "svg-" ++ natToStr now ++ "-" ++ randSuffix
      else idOf svgElement
    let store1 := saveOriginalState store svgElement svgId
    if (subMatches shapeTag svgElement).isEmpty then
      { tree := svgElement, store := store1, ok := false, events := [] }
    else
      let t0 := ensureDefs svgElement
      let defsPath := (firstDefsPath t0).getD []
      let elements := subMatches shapeTag t0
      let final := applyPass cfg filt validator o svgId now defsPath elements.enum
        { tree := t0, k := 0, g := 0, events := [], processedCount := 0 }
      { tree := final.tree, store := store1, ok := true,
        events := final.events ++ [Event.completeEv final.processedCount elements.length] }

/-- Loop state of `applyRandomPathColors` (no gradient coin there: fills are
    always flat colours). -/
structure PathPassState where
  tree : Node
  k : Nat
  events : List Event
  processedCount : Nat
deriving DecidableEq

/-- Element processing for one in-range requested index in `applyRandomPathColors`.
    `Except.error` models the uncaught ReferenceError of the dependent-stroke
    branch (`fillColor` is block-scoped to the fill branch there too); mutations
    made before the throw persist. -/
def processPathShape (cfg : Config) (filt : Option (Node → Bool))
    (validator : Option (String → Bool)) (o : Oracle) (independentColors : Bool)
    (index : Nat) (p : Path) (st : PathPassState) : Except PathPassState PathPassState :=
  let shouldProcessFill := shouldProcessElementColor cfg filt st.tree p "fill"
  let shouldProcessStroke := shouldProcessElementColor cfg filt st.tree p "stroke"
  let afterFill : PathPassState :=
    if shouldProcessFill then
      let rc := generateRandomColor cfg validator o st.k
      { tree := applyColorToElement st.tree p "fill" rc.1, k := rc.2,
        events := st.events ++ [Event.colorApplied p "fill" rc.1 (some index)],
        processedCount := st.processedCount }
    else st
  if shouldProcessStroke then
    if independentColors then
      let rc := generateRandomColor cfg validator o afterFill.k
      Except.ok
        { tree := applyColorToElement afterFill.tree p "stroke" rc.1, k := rc.2,
          events := afterFill.events ++ [Event.colorApplied p "stroke" rc.1 (some index)],
          processedCount := afterFill.processedCount + 1 }
    else Except.error afterFill
  else
    Except.ok { afterFill with processedCount := afterFill.processedCount + 1 }

/-- The `targetIndices.forEach` loop of `applyRandomPathColors`: an index outside
    `[0, elements.length)` is skipped silently; a thrown ReferenceError aborts the
    whole loop. -/
def pathPass (cfg : Config) (filt : Option (Node → Bool)) (validator : Option (String → Bool))
    (o : Oracle) (independentColors : Bool) (len : Nat) (elements : List Path) :
    List Int → PathPassState → Except PathPassState PathPassState
  | [], st => Except.ok st
  | i :: rest, st =>
    if 0 ≤ i && i < (len : Int) then
      match processPathShape cfg filt validator o independentColors i.toNat
          (elements.getD i.toNat []) st with
      | Except.ok st1 => pathPass cfg filt validator o independentColors len elements rest st1
      | Except.error st1 => Except.error st1
    else pathPass cfg filt validator o independentColors len elements rest st

/-- `applyRandomPathColors(svgElement, { pathIndices, independentColors })`.
    It never touches the snapshot store; a caught ReferenceError yields an error
    event (without index) and a false return. -/
def applyRandomPathColors (cfg : Config) (filt : Option (Node → Bool))
    (validator : Option (String → Bool)) (o : Oracle) (store : Store) (svgElement : Node)
    (pathIndices : Option (List Int)) (independentColors : Bool) : ApplyResult :=
  let elements := subMatches shapeTag svgElement
  if elements.isEmpty then
    { tree := svgElement, store := store, ok := false, events := [] }
  else
    let targetIndices := pathIndices.getD ((List.range elements.length).map Int.ofNat)
    match pathPass cfg filt validator o independentColors elements.length elements targetIndices
        { tree := svgElement, k := 0, events := [], processedCount := 0 } with
    | Except.ok st =>
      { tree := st.tree, store := store, ok := true,
        events := st.events ++ [Event.completeEv st.processedCount targetIndices.length] }
    | Except.error st =>
      { tree := st.tree, store := store, ok := false,
        events := st.events ++ [Event.errorEv "ReferenceError: fillColor is not defined" none] }

/-- Restore one element from its record: set the recorded fill, stroke and style
    values, removing an attribute whose recorded value is null. -/
def restoreRecord (rec : ElemRecord) (n : Node) : Node :=
  let n1 := match rec.fill with
    | some v => setAttr "fill" v n
    | none => removeAttr "fill" n
  let n2 := match rec.stroke with
    | some v => setAttr "stroke" v n1
    | none => removeAttr "stroke" n1
  match rec.style with
  | some v => setAttr "style" v n2
  | none => removeAttr "style" n2

/-- The action of `restoreRecord` on an attribute list alone. -/
def restoreAttrs (rec : ElemRecord) (a : List (String × String)) : List (String × String) :=
  let a1 := match rec.fill with
    | some v => setAttrList a "fill" v
    | none => removeKey a "fill"
  let a2 := match rec.stroke with
    | some v => setAttrList a1 "stroke" v
    | none => removeKey a1 "stroke"
  match rec.style with
  | some v => setAttrList a2 "style" v
  | none => removeKey a2 "style"

/-- One iteration of the record loop of `resetColors`: locate the live element at
    the record's index, skip it when the tag kind no longer matches. -/
def restoreStep (elements : List Path) (t : Node) (rec : ElemRecord) : Node :=
  match elements.get? rec.index with
  | none => t
  | some p =>
    match nodeAt t p with
    | none => t
    | some el => if el.tag == rec.tagName then modAt t p (restoreRecord rec) else t

def restoreElements (recs : List ElemRecord) (elements : List Path) (t : Node) : Node :=
  recs.foldl (restoreStep elements) t

/-- Removal of the first defs container (`querySelector('defs')` followed by
    `currentDefs.remove()`); identity when there is none. -/
def removeFirstDefs (t : Node) : Node :=
  match firstDefsPath t with
  | some q => removeAt t q
  | none => t

structure ResetResult where
  tree : Node
  ok : Bool
  events : List Event
deriving DecidableEq

/-- `resetColors(svgElement)`: fail without mutation when the element has no id or
    no snapshot is stored under it; otherwise restore every record, then replace
    the live defs container by a fresh clone of the snapshot's one (inserted as
    first child), or just drop it when the snapshot had none. -/
def resetColors (store : Store) (svgElement : Node) : ResetResult :=
  let svgId := idOf svgElement
  if svgId == "" then { tree := svgElement, ok := false, events := [] }
  else
    match storeFind store svgId with
    | none => { tree := svgElement, ok := false, events := [] }
    | some originalState =>
      let elements := subMatches withGTag svgElement
      let t1 := restoreElements originalState.elements elements svgElement
      let t2 := removeFirstDefs t1
      let t3 := match originalState.defs with
        | some d => insertFirst d t2
        | none => t2
      { tree := t3, ok := true, events := [Event.resetEv svgId] }

/-- Specification-side: the tree with its first defs container (if any) relocated
    to the first-child position; identity when there is no defs container. -/
def moveDefsFront (root : Node) : Node :=
  match firstDefsPath root with
  | some q =>
    match nodeAt root q with
    | some d => insertFirst d (removeAt root q)
    | none => root
  | none => root

/-- Specification-side: the loop invariant of the element loop of
    `applyRandomColors`, relative to the pre-apply tree `svg` and the tree `t0`
    obtained from it after the defs container is ensured.  It records that the
    selector queries and the root header are unchanged, that every queried
    element still has the tag recorded in the snapshot, that an element whose
    snapshot has a fill attribute still declares one, and that restoring the
    snapshot records and dropping the first defs container recovers the
    pre-apply tree (up to its own first defs container). -/
def ApplyInv (svg t0 t : Node) : Prop :=
  (recordsOf svg).length = (subMatches withGTag t0).length ∧
  subMatches withGTag t = subMatches withGTag t0 ∧
  subMatches shapeTag t = subMatches shapeTag t0 ∧
  subMatches defsTag t = subMatches defsTag t0 ∧
  t.tag = t0.tag ∧
  t.attrs = t0.attrs ∧
  (∀ j p2, (subMatches withGTag t0).get? j = some p2 →
    ((recordsOf svg).get? j).map ElemRecord.tagName = (nodeAt t p2).map Node.tag) ∧
  (∀ j p2 r n, (subMatches withGTag t0).get? j = some p2 → (recordsOf svg).get? j = some r →
    nodeAt t p2 = some n → r.fill.isSome = true → hasKey n.attrs "fill" = true) ∧
  removeFirstDefs (restoreElements (recordsOf svg) (subMatches withGTag t0) t) =
    removeFirstDefs svg

/-- Specification-side: the path of a node after a new first child is inserted
    above it. -/
def bumpPath : Path → Path
  | [] => []
  | h :: r => (h + 1) :: r

/-- Specification-side: erase every attribute list in a tree, keeping tags and the
    child structure.  Mutations that only touch attributes leave this skeleton
    unchanged, and tag queries factor through it. -/
def stripA : Node → Node
  | .mk t _ cs => .mk t [] (go cs)
where go : List Node → List Node
  | [] => []
  | c :: cs => stripA c :: go cs

end SvgSmart

namespace SvgSmart

/-! Basic lemmas about list surgery. -/

theorem length_modIdx {α : Type} (cs : List α) (i : Nat) (f : α → α) :
    (modIdx cs i f).length = cs.length := by
  induction cs generalizing i with
  | nil => rfl
  | cons c cs ih =>
    cases i with
    | zero => rfl
    | succ j => simpa [modIdx] using ih j

theorem get?_modIdx_self {α : Type} (cs : List α) (i : Nat) (f : α → α) :
    (modIdx cs i f).get? i = (cs.get? i).map f := by
  induction cs generalizing i with
  | nil => cases i <;> rfl
  | cons c cs ih =>
    cases i with
    | zero => rfl
    | succ j => simpa [modIdx] using ih j

theorem get?_modIdx_ne {α : Type} (cs : List α) (i j : Nat) (f : α → α) (h : i ≠ j) :
    (modIdx cs i f).get? j = cs.get? j := by
  induction cs generalizing i j with
  | nil => cases i <;> rfl
  | cons c cs ih =>
    cases i with
    | zero => cases j with
      | zero => exact absurd rfl h
      | succ m => rfl
    | succ m =>
      cases j with
      | zero => rfl
      | succ l => simpa [modIdx] using ih m l (by omega)

theorem modIdx_modIdx_self {α : Type} (cs : List α) (i : Nat) (f g : α → α) :
    modIdx (modIdx cs i f) i g = modIdx cs i (fun c => g (f c)) := by
  induction cs generalizing i with
  | nil => rfl
  | cons c cs ih =>
    cases i with
    | zero => rfl
    | succ j => simpa [modIdx] using ih j

theorem modIdx_modIdx_ne {α : Type} (cs : List α) (i j : Nat) (f g : α → α) (h : i ≠ j) :
    modIdx (modIdx cs i f) j g = modIdx (modIdx cs j g) i f := by
  induction cs generalizing i j with
  | nil => rfl
  | cons c cs ih =>
    cases i with
    | zero =>
      cases j with
      | zero => exact absurd rfl h
      | succ m => rfl
    | succ m =>
      cases j with
      | zero => rfl
      | succ l => simpa [modIdx] using ih m l (by omega)

theorem modIdx_congr_of_get? {α : Type} (cs : List α) (i : Nat) (f g : α → α)
    (h : ∀ c, cs.get? i = some c → f c = g c) : modIdx cs i f = modIdx cs i g := by
  induction cs generalizing i with
  | nil => rfl
  | cons c cs ih =>
    cases i with
    | zero => simp [modIdx, h c rfl]
    | succ j => simp [modIdx, ih j (fun c hc => h c hc)]

theorem modIdx_id_of_get? {α : Type} (cs : List α) (i : Nat) (f : α → α)
    (h : ∀ c, cs.get? i = some c → f c = c) : modIdx cs i f = cs := by
  induction cs generalizing i with
  | nil => rfl
  | cons c cs ih =>
    cases i with
    | zero => simp [modIdx, h c rfl]
    | succ j => simp [modIdx, ih j (fun c hc => h c hc)]

theorem eraseIdx_modIdx {α : Type} (cs : List α) (i : Nat) (f : α → α) :
    (modIdx cs i f).eraseIdx i = cs.eraseIdx i := by
  induction cs generalizing i with
  | nil => rfl
  | cons c cs ih =>
    cases i with
    | zero => rfl
    | succ j => simpa [modIdx, List.eraseIdx] using ih j

/-! Basic lemmas about nodeAt and modAt. -/

theorem nodeAt_nil (t : Node) : nodeAt t [] = some t := rfl

theorem modAt_nil (t : Node) (f : Node → Node) : modAt t [] f = f t := by
  cases t
  rfl

theorem nodeAt_cons (tg : String) (a : List (String × String)) (cs : List Node)
    (i : Nat) (p : Path) :
    nodeAt (Node.mk tg a cs) (i :: p) =
      match cs.get? i with
      | some c => nodeAt c p
      | none => none := rfl

theorem nodeAt_cons_some {cs : List Node} {i : Nat} {c : Node}
    (tg : String) (a : List (String × String)) (p : Path) (h : cs.get? i = some c) :
    nodeAt (Node.mk tg a cs) (i :: p) = nodeAt c p := by
  rw [nodeAt_cons, h]

theorem nodeAt_cons_none {cs : List Node} {i : Nat}
    (tg : String) (a : List (String × String)) (p : Path) (h : cs.get? i = none) :
    nodeAt (Node.mk tg a cs) (i :: p) = none := by
  rw [nodeAt_cons, h]

theorem modAt_cons (tg : String) (a : List (String × String)) (cs : List Node)
    (i : Nat) (p : Path) (f : Node → Node) :
    modAt (Node.mk tg a cs) (i :: p) f = Node.mk tg a (modIdx cs i (fun c => modAt c p f)) := rfl

theorem tag_modAt_cons (t : Node) (i : Nat) (p : Path) (f : Node → Node) :
    (modAt t (i :: p) f).tag = t.tag := by
  cases t; rfl

theorem attrs_modAt_cons (t : Node) (i : Nat) (p : Path) (f : Node → Node) :
    (modAt t (i :: p) f).attrs = t.attrs := by
  cases t; rfl

theorem nodeAt_modAt_self (t : Node) (p : Path) (f : Node → Node) :
    nodeAt (modAt t p f) p = (nodeAt t p).map f := by
  induction p generalizing t with
  | nil => rw [modAt_nil, nodeAt_nil, nodeAt_nil]; rfl
  | cons i p ih =>
    cases t with
    | mk tg a cs =>
      rw [modAt_cons, nodeAt_cons, nodeAt_cons, get?_modIdx_self]
      cases h : cs.get? i with
      | none => rfl
      | some c => simpa using ih c

theorem modAt_congr (t : Node) (p : Path) (f g : Node → Node)
    (h : ∀ n, nodeAt t p = some n → f n = g n) : modAt t p f = modAt t p g := by
  induction p generalizing t with
  | nil => rw [modAt_nil, modAt_nil]; exact h t rfl
  | cons i p ih =>
    cases t with
    | mk tg a cs =>
      simp only [modAt_cons, Node.mk.injEq, true_and]
      apply modIdx_congr_of_get?
      intro c hc
      apply ih
      intro n hn
      apply h
      rw [nodeAt_cons_some tg a p hc]
      exact hn

theorem modAt_id (t : Node) (p : Path) (f : Node → Node)
    (h : ∀ n, nodeAt t p = some n → f n = n) : modAt t p f = t := by
  induction p generalizing t with
  | nil => rw [modAt_nil]; exact h t rfl
  | cons i p ih =>
    cases t with
    | mk tg a cs =>
      simp only [modAt_cons, Node.mk.injEq, true_and]
      apply modIdx_id_of_get?
      intro c hc
      apply ih
      intro n hn
      apply h
      rw [nodeAt_cons_some tg a p hc]
      exact hn

theorem modAt_modAt_self (t : Node) (p : Path) (f g : Node → Node) :
    modAt (modAt t p f) p g = modAt t p (fun n => g (f n)) := by
  induction p generalizing t with
  | nil => rw [modAt_nil, modAt_nil, modAt_nil]
  | cons i p ih =>
    cases t with
    | mk tg a cs =>
      simp only [modAt_cons, modIdx_modIdx_self, Node.mk.injEq, true_and]
      exact modIdx_congr_of_get? _ _ _ _ (fun c _ => ih c)

end SvgSmart

namespace SvgSmart

/-! Attribute-list algebra: how setAttribute and removeAttribute interact. -/

theorem setAttrList_setAttrList_self (a : List (String × String)) (k v w : String) :
    setAttrList (setAttrList a k v) k w = setAttrList a k w := by
  induction a with
  | nil => simp [setAttrList]
  | cons x rest ih =>
    by_cases h : (x.1 == k) = true
    · simp [setAttrList, h]
    · simp only [setAttrList, h, Bool.false_eq_true, if_neg, if_false, List.cons.injEq, true_and]
      simpa using ih

theorem removeKey_setAttrList_self (a : List (String × String)) (k v : String) :
    removeKey (setAttrList a k v) k = removeKey a k := by
  induction a with
  | nil => simp [setAttrList, removeKey]
  | cons x rest ih =>
    by_cases h : (x.1 == k) = true
    · simp [setAttrList, removeKey, h]
    · simp only [setAttrList, h, if_false, Bool.false_eq_true]
      simp only [removeKey, List.filter_cons, h, Bool.not_false, if_true, Bool.false_eq_true]
      simpa [removeKey] using ih

theorem hasKey_setAttrList (a : List (String × String)) (k k2 v : String) :
    hasKey (setAttrList a k v) k2 = (hasKey a k2 || (k == k2)) := by
  induction a with
  | nil => simp [setAttrList, hasKey]
  | cons x rest ih =>
    by_cases h : (x.1 == k) = true
    · have hx : x.1 = k := by simpa using h
      simp only [setAttrList, h, if_true, hasKey, List.any_cons, hx]
      simp only [hasKey] at *
      cases hkk : (k == k2) <;> cases hr : rest.any (fun y => y.1 == k2) <;> simp [hkk, hr]
    · simp only [setAttrList, h, if_false, Bool.false_eq_true, hasKey, List.any_cons]
      simp only [hasKey] at ih
      rw [ih, Bool.or_assoc]

theorem setAttrList_comm_of_hasKey (a : List (String × String)) (k1 k2 v1 v2 : String)
    (hne : (k1 == k2) = false) (hk : hasKey a k2 = true) :
    setAttrList (setAttrList a k1 v1) k2 v2 = setAttrList (setAttrList a k2 v2) k1 v1 := by
  induction a with
  | nil => simp [hasKey] at hk
  | cons x rest ih =>
    by_cases h1 : (x.1 == k1) = true
    · have hx : x.1 = k1 := by simpa using h1
      have h2 : (x.1 == k2) = false := by subst hx; exact hne
      simp [setAttrList, h1, h2]
    · by_cases h2 : (x.1 == k2) = true
      · simp [setAttrList, h1, h2]
      · simp only [hasKey, List.any_cons, h2, Bool.false_or] at hk
        simp only [setAttrList, h1, h2, if_false, Bool.false_eq_true, List.cons.injEq, true_and]
        exact ih hk

theorem removeKey_setAttrList_ne (a : List (String × String)) (k1 k2 v : String)
    (hne : (k1 == k2) = false) :
    removeKey (setAttrList a k1 v) k2 = setAttrList (removeKey a k2) k1 v := by
  induction a with
  | nil => simp [setAttrList, removeKey, hne]
  | cons x rest ih =>
    by_cases h1 : (x.1 == k1) = true
    · have hx : x.1 = k1 := by simpa using h1
      have h2 : (x.1 == k2) = false := by subst hx; exact hne
      simp [setAttrList, h1, removeKey, List.filter_cons, h2]
    · by_cases h2 : (x.1 == k2) = true
      · simp only [setAttrList, h1, if_false, Bool.false_eq_true]
        simp only [removeKey, List.filter_cons, h2, Bool.not_true, if_false, Bool.false_eq_true]
        simpa [removeKey] using ih
      · simp only [setAttrList, h1, if_false, Bool.false_eq_true]
        simp only [removeKey, List.filter_cons, h2, Bool.not_false, if_true, Bool.false_eq_true]
        simp only [removeKey] at ih
        rw [ih]
        simp [setAttrList, h1]

theorem hasKey_removeKey_ne (a : List (String × String)) (k1 k2 : String)
    (hne : (k1 == k2) = false) : hasKey (removeKey a k1) k2 = hasKey a k2 := by
  induction a with
  | nil => rfl
  | cons x rest ih =>
    by_cases h1 : (x.1 == k1) = true
    · have hx : x.1 = k1 := by simpa using h1
      have h2 : (x.1 == k2) = false := by subst hx; exact hne
      simp only [removeKey, List.filter_cons, h1, Bool.not_true, if_false, Bool.false_eq_true]
      simp only [hasKey, List.any_cons, h2, Bool.false_or]
      simpa [removeKey, hasKey] using ih
    · simp only [removeKey, List.filter_cons, h1, Bool.not_false, if_true, Bool.false_eq_true]
      simp only [hasKey, List.any_cons]
      simp only [removeKey, hasKey] at ih
      rw [ih]

end SvgSmart

namespace SvgSmart

/-! Lemmas connecting node-level attribute operations with the list level. -/

theorem getAttr_eq_findVal (n : Node) (k : String) : getAttr n k = findVal n.attrs k := rfl

theorem setAttr_mk (k v tg : String) (a : List (String × String)) (cs : List Node) :
    setAttr k v (Node.mk tg a cs) = Node.mk tg (setAttrList a k v) cs := rfl

theorem removeAttr_mk (k tg : String) (a : List (String × String)) (cs : List Node) :
    removeAttr k (Node.mk tg a cs) = Node.mk tg (removeKey a k) cs := rfl

theorem restoreRecord_mk (rec : ElemRecord) (tg : String) (a : List (String × String))
    (cs : List Node) :
    restoreRecord rec (Node.mk tg a cs) = Node.mk tg (restoreAttrs rec a) cs := by
  cases hf : rec.fill <;> cases hs : rec.stroke <;> cases ht : rec.style <;>
    simp [restoreRecord, restoreAttrs, hf, hs, ht, setAttr_mk, removeAttr_mk]

theorem findVal_setAttrList_self (a : List (String × String)) (k v : String) :
    findVal (setAttrList a k v) k = some v := by
  induction a with
  | nil => simp [setAttrList, findVal, List.find?]
  | cons x rest ih =>
    by_cases h : (x.1 == k) = true
    · simp [setAttrList, h, findVal, List.find?]
    · simp only [setAttrList, h, if_false, Bool.false_eq_true]
      simp only [findVal, List.find?_cons, h]
      simpa [findVal] using ih

theorem setAttrList_findVal_self (a : List (String × String)) (k v : String)
    (h : findVal a k = some v) : setAttrList a k v = a := by
  induction a with
  | nil => simp [findVal, List.find?] at h
  | cons x rest ih =>
    by_cases hx : (x.1 == k) = true
    · simp only [findVal, List.find?_cons, hx, Option.map_some] at h
      cases h
      simp [setAttrList, hx]
    · simp only [findVal, List.find?_cons, hx] at h
      simp only [setAttrList, hx, if_false, Bool.false_eq_true, List.cons.injEq, true_and]
      exact ih (by simpa [findVal] using h)

theorem removeKey_findVal_none (a : List (String × String)) (k : String)
    (h : findVal a k = none) : removeKey a k = a := by
  induction a with
  | nil => rfl
  | cons x rest ih =>
    by_cases hx : (x.1 == k) = true
    · simp [findVal, List.find?_cons, hx] at h
    · have h2 : findVal rest k = none := by
        simpa [findVal, List.find?_cons, hx] using h
      simp only [removeKey, List.filter_cons, hx, Bool.not_false, if_true, Bool.false_eq_true,
        List.cons.injEq, true_and]
      simpa [removeKey] using ih h2

theorem isSome_findVal_eq_hasKey (a : List (String × String)) (k : String) :
    (findVal a k).isSome = hasKey a k := by
  induction a with
  | nil => rfl
  | cons x rest ih =>
    by_cases hx : (x.1 == k) = true
    · simp [findVal, List.find?_cons, hx, hasKey]
    · simp only [findVal, List.find?_cons, hx, hasKey, List.any_cons, Bool.false_or]
      simpa [findVal, hasKey] using ih

theorem restoreAttrs_self (rec : ElemRecord) (a : List (String × String))
    (hf : rec.fill = findVal a "fill") (hs : rec.stroke = findVal a "stroke")
    (ht : rec.style = findVal a "style") : restoreAttrs rec a = a := by
  have step : ∀ (b : List (String × String)) (k : String) (o : Option String), o = findVal b k →
      (match o with | some v => setAttrList b k v | none => removeKey b k) = b := by
    intro b k o ho
    cases o with
    | some v => exact setAttrList_findVal_self b k v ho.symm
    | none => exact removeKey_findVal_none b k ho.symm
  show (match rec.style with
    | some v => setAttrList (match rec.stroke with
        | some v2 => setAttrList (match rec.fill with
            | some v3 => setAttrList a "fill" v3
            | none => removeKey a "fill") "stroke" v2
        | none => removeKey (match rec.fill with
            | some v3 => setAttrList a "fill" v3
            | none => removeKey a "fill") "stroke") "style" v
    | none => removeKey (match rec.stroke with
        | some v2 => setAttrList (match rec.fill with
            | some v3 => setAttrList a "fill" v3
            | none => removeKey a "fill") "stroke" v2
        | none => removeKey (match rec.fill with
            | some v3 => setAttrList a "fill" v3
            | none => removeKey a "fill") "stroke") "style") = a
  rw [step a "fill" rec.fill hf, step a "stroke" rec.stroke hs, step a "style" rec.style ht]

theorem restoreAttrs_absorb_fill (rec : ElemRecord) (a : List (String × String)) (v : String) :
    restoreAttrs rec (setAttrList a "fill" v) = restoreAttrs rec a := by
  cases hf : rec.fill with
  | some f => simp only [restoreAttrs, hf, setAttrList_setAttrList_self]
  | none => simp only [restoreAttrs, hf, removeKey_setAttrList_self]

theorem restoreAttrs_absorb_stroke (rec : ElemRecord) (a : List (String × String)) (v : String)
    (hk : rec.fill.isSome = true → hasKey a "fill" = true) :
    restoreAttrs rec (setAttrList a "stroke" v) = restoreAttrs rec a := by
  cases hf : rec.fill with
  | some f =>
    have hkf : hasKey a "fill" = true := hk (by simp [hf])
    simp only [restoreAttrs, hf]
    rw [setAttrList_comm_of_hasKey a "stroke" "fill" v f (by decide) hkf]
    cases rec.stroke with
    | some s => simp only [setAttrList_setAttrList_self]
    | none => simp only [removeKey_setAttrList_self]
  | none =>
    simp only [restoreAttrs, hf]
    rw [removeKey_setAttrList_ne a "stroke" "fill" v (by decide)]
    cases rec.stroke with
    | some s => simp only [setAttrList_setAttrList_self]
    | none => simp only [removeKey_setAttrList_self]

end SvgSmart

namespace SvgSmart

/-! The attribute-erased skeleton: attribute-only mutations preserve it, and tag
    queries factor through it. -/

theorem stripAGo_eq_map : ∀ cs : List Node, stripA.go cs = cs.map stripA
  | [] => rfl
  | c :: cs => by rw [stripA.go, stripAGo_eq_map cs, List.map_cons]

theorem stripA_mk (tg : String) (a : List (String × String)) (cs : List Node) :
    stripA (Node.mk tg a cs) = Node.mk tg [] (cs.map stripA) := by
  rw [stripA, stripAGo_eq_map]

theorem tag_stripA (n : Node) : (stripA n).tag = n.tag := by
  cases n with
  | mk tg a cs => rw [stripA_mk]; rfl

theorem nodeAt_stripA (t : Node) (p : Path) :
    nodeAt (stripA t) p = (nodeAt t p).map stripA := by
  induction p generalizing t with
  | nil => rw [nodeAt_nil, nodeAt_nil]; rfl
  | cons i p ih =>
    cases t with
    | mk tg a cs =>
      rw [stripA_mk, nodeAt_cons, nodeAt_cons]
      rw [List.get?_map]
      cases h : cs.get? i with
      | none => rfl
      | some c => simpa using ih c

theorem tagAt_eq_of_stripA_eq {t1 t2 : Node} (h : stripA t1 = stripA t2) (q : Path) :
    (nodeAt t1 q).map Node.tag = (nodeAt t2 q).map Node.tag := by
  have e1 : (nodeAt t1 q).map (fun n => (stripA n).tag) = (nodeAt t2 q).map (fun n => (stripA n).tag) := by
    have := congrArg (fun u => (nodeAt u q).map Node.tag) h
    simpa [nodeAt_stripA, Option.map_map, Function.comp] using this
  have f1 : ∀ t : Node, (nodeAt t q).map (fun n => (stripA n).tag) = (nodeAt t q).map Node.tag := by
    intro t
    cases nodeAt t q with
    | none => rfl
    | some n => simp [tag_stripA]
  rw [f1 t1, f1 t2] at e1
  exact e1

theorem isSome_nodeAt_eq_of_stripA_eq {t1 t2 : Node} (h : stripA t1 = stripA t2) (q : Path) :
    (nodeAt t1 q).isSome = (nodeAt t2 q).isSome := by
  have := congrArg (fun u => (nodeAt u q).isSome) h
  simpa [nodeAt_stripA] using this

theorem map_modIdx_eq_map {α β : Type} (cs : List α) (i : Nat) (g : α → α) (h : α → β)
    (hcomm : ∀ c, h (g c) = h c) : (modIdx cs i g).map h = cs.map h := by
  induction cs generalizing i with
  | nil => rfl
  | cons c cs ih =>
    cases i with
    | zero => simp [modIdx, hcomm]
    | succ j => simp [modIdx, ih j]

theorem stripA_modAt_attrOnly (t : Node) (p : Path) (f : Node → Node)
    (F : String → List (String × String) → List (String × String))
    (hf : ∀ tg a cs, f (Node.mk tg a cs) = Node.mk tg (F tg a) cs) :
    stripA (modAt t p f) = stripA t := by
  induction p generalizing t with
  | nil =>
    cases t with
    | mk tg a cs => rw [modAt_nil, hf, stripA_mk, stripA_mk]
  | cons i p ih =>
    cases t with
    | mk tg a cs =>
      rw [modAt_cons, stripA_mk, stripA_mk]
      rw [map_modIdx_eq_map cs i _ stripA (fun c => ih c)]

/-! The skeleton also determines every tag query. -/

mutual

theorem subMatches_stripA (sel : String → Bool) : ∀ t : Node,
    subMatches sel (stripA t) = subMatches sel t
  | .mk tg a cs => by
    rw [stripA_mk]
    show subMatches.go sel (cs.map stripA) 0 = subMatches.go sel cs 0
    exact subMatchesGo_stripA sel cs 0

theorem subMatchesGo_stripA (sel : String → Bool) : ∀ (cs : List Node) (i : Nat),
    subMatches.go sel (cs.map stripA) i = subMatches.go sel cs i
  | [], _ => rfl
  | c :: cs, i => by
    rw [List.map_cons, subMatches.go, subMatches.go]
    rw [tag_stripA, subMatches_stripA sel c, subMatchesGo_stripA sel cs (i + 1)]

end

theorem subMatches_modAt_attrOnly (sel : String → Bool) (t : Node) (p : Path) (f : Node → Node)
    (F : String → List (String × String) → List (String × String))
    (hf : ∀ tg a cs, f (Node.mk tg a cs) = Node.mk tg (F tg a) cs) :
    subMatches sel (modAt t p f) = subMatches sel t := by
  rw [← subMatches_stripA sel (modAt t p f), stripA_modAt_attrOnly t p f F hf,
    subMatches_stripA sel t]

theorem tagAt_modAt_attrOnly (t : Node) (p : Path) (f : Node → Node)
    (F : String → List (String × String) → List (String × String))
    (hf : ∀ tg a cs, f (Node.mk tg a cs) = Node.mk tg (F tg a) cs) (q : Path) :
    (nodeAt (modAt t p f) q).map Node.tag = (nodeAt t q).map Node.tag :=
  tagAt_eq_of_stripA_eq (stripA_modAt_attrOnly t p f F hf) q

theorem isSomeAt_modAt_attrOnly (t : Node) (p : Path) (f : Node → Node)
    (F : String → List (String × String) → List (String × String))
    (hf : ∀ tg a cs, f (Node.mk tg a cs) = Node.mk tg (F tg a) cs) (q : Path) :
    (nodeAt (modAt t p f) q).isSome = (nodeAt t q).isSome :=
  isSome_nodeAt_eq_of_stripA_eq (stripA_modAt_attrOnly t p f F hf) q

/-! Commuting mutations at different places of the tree. -/

theorem modAt_comm_attr_attr (f g : Node → Node)
    (F G : String → List (String × String) → List (String × String))
    (hf : ∀ tg a cs, f (Node.mk tg a cs) = Node.mk tg (F tg a) cs)
    (hg : ∀ tg a cs, g (Node.mk tg a cs) = Node.mk tg (G tg a) cs) :
    ∀ (p q : Path) (t : Node), p ≠ q →
      modAt (modAt t p f) q g = modAt (modAt t q g) p f := by
  intro p
  induction p with
  | nil =>
    intro q t hne
    cases q with
    | nil => exact absurd rfl hne
    | cons j qq =>
      cases t with
      | mk tg a cs =>
        rw [modAt_nil, hf, modAt_cons, modAt_cons, modAt_nil, hf]
  | cons i pp ih =>
    intro q t hne
    cases q with
    | nil =>
      cases t with
      | mk tg a cs =>
        rw [modAt_cons, modAt_nil, hg, modAt_nil, hg, modAt_cons]
    | cons j qq =>
      cases t with
      | mk tg a cs =>
        by_cases hij : i = j
        · subst hij
          have hppqq : pp ≠ qq := by
            intro hc; exact hne (by rw [hc])
          rw [modAt_cons, modAt_cons, modAt_cons, modAt_cons,
            modIdx_modIdx_self, modIdx_modIdx_self]
          congr 1
          apply modIdx_congr_of_get?
          intro c _
          exact ih qq c hppqq
        · rw [modAt_cons, modAt_cons, modAt_cons, modAt_cons]
          rw [modIdx_modIdx_ne cs i j _ _ hij]

theorem modIdx_append_left {α : Type} (cs ds : List α) (i : Nat) (f : α → α)
    (h : i < cs.length) : modIdx (cs ++ ds) i f = modIdx cs i f ++ ds := by
  induction cs generalizing i with
  | nil => simp at h
  | cons c cs ih =>
    cases i with
    | zero => rfl
    | succ j =>
      simp only [List.cons_append, modIdx, List.cons.injEq, true_and]
      exact ih j (by simpa using h)

theorem appendChildAt_nil (tg : String) (a : List (String × String)) (cs : List Node)
    (c : Node) : appendChildAt (Node.mk tg a cs) [] c = Node.mk tg a (cs ++ [c]) := by
  unfold appendChildAt
  rw [modAt_nil]
  rfl

theorem appendChildAt_cons (tg : String) (a : List (String × String)) (cs : List Node)
    (j : Nat) (qq : Path) (c : Node) :
    appendChildAt (Node.mk tg a cs) (j :: qq) c =
      Node.mk tg a (modIdx cs j (fun d => appendChildAt d qq c)) := rfl

theorem modAt_appendChildAt_comm (f : Node → Node)
    (F : String → List (String × String) → List (String × String))
    (hf : ∀ tg a cs, f (Node.mk tg a cs) = Node.mk tg (F tg a) cs) :
    ∀ (p q : Path) (t : Node) (c : Node), (nodeAt t p).isSome = true →
      modAt (appendChildAt t q c) p f = appendChildAt (modAt t p f) q c := by
  intro p
  induction p with
  | nil =>
    intro q t c _
    cases t with
    | mk tg a cs =>
      cases q with
      | nil => rw [appendChildAt_nil, modAt_nil, hf, modAt_nil, hf, appendChildAt_nil]
      | cons j qq =>
        rw [appendChildAt_cons, modAt_nil, hf, modAt_nil, hf, appendChildAt_cons]
  | cons i pp ih =>
    intro q t c hvalid
    cases t with
    | mk tg a cs =>
      cases q with
      | nil =>
        have hi : i < cs.length := by
          rw [nodeAt_cons] at hvalid
          cases h : cs.get? i with
          | none => rw [h] at hvalid; simp at hvalid
          | some d =>
            obtain ⟨hlt, -⟩ := List.get?_eq_some.mp h
            exact hlt
        rw [appendChildAt_nil, modAt_cons, modIdx_append_left cs [c] i _ hi,
          modAt_cons, appendChildAt_nil]
      | cons j qq =>
        rw [appendChildAt_cons, modAt_cons, modAt_cons, appendChildAt_cons]
        by_cases hij : i = j
        · subst hij
          rw [modIdx_modIdx_self, modIdx_modIdx_self]
          congr 1
          apply modIdx_congr_of_get?
          intro d hd
          have hvpp : (nodeAt d pp).isSome = true := by
            rw [nodeAt_cons, hd] at hvalid
            exact hvalid
          exact ih qq d c hvpp
        · rw [modIdx_modIdx_ne cs i j _ _ hij]

end SvgSmart

namespace SvgSmart

/-! How querySelectorAll reacts to the tree mutations the library performs. -/

theorem subMatches_mk (sel : String → Bool) (tg : String) (a : List (String × String))
    (cs : List Node) : subMatches sel (Node.mk tg a cs) = subMatches.go sel cs 0 := rfl

theorem subMatchesGo_append (sel : String → Bool) (cs ds : List Node) (i : Nat) :
    subMatches.go sel (cs ++ ds) i = subMatches.go sel cs i ++ subMatches.go sel ds (i + cs.length) := by
  induction cs generalizing i with
  | nil => simp [subMatches.go]
  | cons c cs ih =>
    rw [List.cons_append, subMatches.go, subMatches.go, ih (i + 1),
      List.length_cons]
    have : i + 1 + cs.length = i + (cs.length + 1) := by omega
    rw [this]
    simp [List.append_assoc]

theorem subMatchesGo_single (sel : String → Bool) (d : Node) (i : Nat) :
    subMatches.go sel [d] i =
      (if sel d.tag then [[i]] else []) ++ (subMatches sel d).map (i :: ·) := by
  simp [subMatches.go]

theorem subMatchesGo_congr (sel : String → Bool) (cs : List Node) (j : Nat) (A : Node → Node)
    (h : ∀ c, cs.get? j = some c → sel (A c).tag = sel c.tag ∧
      subMatches sel (A c) = subMatches sel c) :
    ∀ i, subMatches.go sel (modIdx cs j A) i = subMatches.go sel cs i := by
  induction cs generalizing j with
  | nil => intro i; rfl
  | cons c cs ih =>
    intro i
    cases j with
    | zero =>
      obtain ⟨h1, h2⟩ := h c rfl
      simp only [modIdx, subMatches.go, h1, h2]
    | succ m =>
      simp only [modIdx, subMatches.go]
      rw [ih m (fun c hc => h c hc) (i + 1)]

theorem tag_appendChildAt (t : Node) (q : Path) (c : Node) :
    (appendChildAt t q c).tag = t.tag := by
  cases t with
  | mk tg a cs =>
    cases q with
    | nil => rw [appendChildAt_nil]; rfl
    | cons j qq => rw [appendChildAt_cons]; rfl

theorem subMatches_appendChildAt (sel : String → Bool) (t : Node) (q : Path) (junk : Node)
    (h1 : sel junk.tag = false) (h2 : subMatches sel junk = []) :
    subMatches sel (appendChildAt t q junk) = subMatches sel t := by
  induction q generalizing t with
  | nil =>
    cases t with
    | mk tg a cs =>
      rw [appendChildAt_nil, subMatches_mk, subMatches_mk, subMatchesGo_append,
        subMatchesGo_single, h1, h2]
      simp
  | cons j qq ih =>
    cases t with
    | mk tg a cs =>
      rw [appendChildAt_cons, subMatches_mk, subMatches_mk]
      apply subMatchesGo_congr
      intro c _
      exact ⟨by rw [tag_appendChildAt], ih c⟩

theorem subMatchesGo_succ (sel : String → Bool) (cs : List Node) (i : Nat) :
    subMatches.go sel cs (i + 1) = (subMatches.go sel cs i).map bumpPath := by
  induction cs generalizing i with
  | nil => rfl
  | cons c cs ih =>
    rw [subMatches.go, subMatches.go, ih (i + 1)]
    cases h : sel c.tag <;>
      simp [h, bumpPath, List.map_append, List.map_map, Function.comp]

theorem subMatches_insertFirst_nomatch (sel : String → Bool) (d : Node) (t : Node)
    (h1 : sel d.tag = false) (h2 : subMatches sel d = []) :
    subMatches sel (insertFirst d t) = (subMatches sel t).map bumpPath := by
  cases t with
  | mk tg a cs =>
    show subMatches.go sel (d :: cs) 0 = (subMatches.go sel cs 0).map bumpPath
    simp only [subMatches.go, h1, h2, if_false, List.map_nil, List.nil_append,
      Bool.false_eq_true]
    exact subMatchesGo_succ sel cs 0

theorem subMatches_insertFirst_match (sel : String → Bool) (d : Node) (t : Node)
    (h1 : sel d.tag = true) (h2 : subMatches sel d = []) (h3 : subMatches sel t = []) :
    subMatches sel (insertFirst d t) = [[0]] := by
  cases t with
  | mk tg a cs =>
    show subMatches.go sel (d :: cs) 0 = [[0]]
    rw [subMatches.go, h1, h2, subMatchesGo_succ]
    rw [subMatches_mk] at h3
    rw [h3]
    simp

theorem nodeAt_insertFirst_bump (d t : Node) (h : Nat) (r : Path) :
    nodeAt (insertFirst d t) ((h + 1) :: r) = nodeAt t (h :: r) := by
  cases t with
  | mk tg a cs => rw [insertFirst, nodeAt_cons, nodeAt_cons, List.get?_cons_succ]

theorem modAt_insertFirst_bump (d t : Node) (h : Nat) (r : Path) (f : Node → Node) :
    modAt (insertFirst d t) ((h + 1) :: r) f = insertFirst d (modAt t (h :: r) f) := by
  cases t with
  | mk tg a cs => rw [insertFirst, modAt_cons, modAt_cons, insertFirst]; rfl

theorem removeAt_insertFirst_zero (d t : Node) : removeAt (insertFirst d t) [0] = t := by
  cases t with
  | mk tg a cs => rfl

/-! Which paths querySelectorAll returns: exactly the nonempty valid paths whose
    node's tag satisfies the selector. -/

theorem mem_subMatchesGo (sel : String → Bool) :
    ∀ (cs : List Node) (i : Nat) (p : Path),
      p ∈ subMatches.go sel cs i ↔
        ∃ j c rest, cs.get? j = some c ∧ p = (i + j) :: rest ∧
          ((rest = [] ∧ sel c.tag = true) ∨ rest ∈ subMatches sel c) := by
  intro cs
  induction cs with
  | nil =>
    intro i p
    simp [subMatches.go]
  | cons c cs ih =>
    intro i p
    simp only [subMatches.go, List.mem_append]
    constructor
    · rintro ((h | h) | h)
      · by_cases hsel : sel c.tag = true
        · rw [if_pos hsel] at h
          simp only [List.mem_singleton] at h
          exact ⟨0, c, [], rfl, by simpa using h, Or.inl ⟨rfl, hsel⟩⟩
        · rw [if_neg hsel] at h
          simp at h
      · obtain ⟨rest, hrest, hp⟩ := List.mem_map.mp h
        exact ⟨0, c, rest, rfl, by simpa using hp.symm, Or.inr hrest⟩
      · obtain ⟨j, c2, rest, hget, hp, hdisj⟩ := (ih (i + 1) p).mp h
        refine ⟨j + 1, c2, rest, by simpa using hget, ?_, hdisj⟩
        rw [hp]
        congr 1
        omega
    · rintro ⟨j, c2, rest, hget, hp, hdisj⟩
      cases j with
      | zero =>
        simp only [List.get?_cons_zero, Option.some.injEq] at hget
        subst hget
        rcases hdisj with ⟨hrest, hsel⟩ | hmem
        · subst hrest
          left; left
          rw [if_pos hsel]
          simp [hp]
        · left; right
          apply List.mem_map.mpr
          exact ⟨rest, hmem, by simp [hp]⟩
      | succ m =>
        right
        apply (ih (i + 1) p).mpr
        refine ⟨m, c2, rest, by simpa using hget, ?_, hdisj⟩
        rw [hp]
        congr 1
        omega

theorem nil_not_mem_subMatches (sel : String → Bool) (t : Node) :
    ¬ ([] ∈ subMatches sel t) := by
  cases t with
  | mk tg a cs =>
    rw [subMatches_mk]
    intro h
    obtain ⟨j, c, rest, _, hp, _⟩ := (mem_subMatchesGo sel cs 0 []).mp h
    exact List.noConfusion hp

theorem mem_subMatches_iff (sel : String → Bool) :
    ∀ (p : Path) (t : Node),
      p ∈ subMatches sel t ↔ p ≠ [] ∧ ∃ n, nodeAt t p = some n ∧ sel n.tag = true := by
  intro p
  induction p with
  | nil =>
    intro t
    constructor
    · intro h; exact absurd h (nil_not_mem_subMatches sel t)
    · rintro ⟨hne, -⟩; exact absurd rfl hne
  | cons i rest ih =>
    intro t
    cases t with
    | mk tg a cs =>
      rw [subMatches_mk, mem_subMatchesGo]
      constructor
      · rintro ⟨j, c, rest2, hget, hp, hdisj⟩
        rw [Nat.zero_add] at hp
        obtain ⟨hij, hrest⟩ : i = j ∧ rest = rest2 := by
          cases hp; exact ⟨rfl, rfl⟩
        subst hij
        subst hrest
        refine ⟨List.cons_ne_nil i rest, ?_⟩
        rw [nodeAt_cons_some tg a rest hget]
        rcases hdisj with ⟨hrest2, hsel⟩ | hmem
        · subst hrest2
          exact ⟨c, rfl, hsel⟩
        · obtain ⟨-, n, hnode, hsel⟩ := (ih c).mp hmem
          exact ⟨n, hnode, hsel⟩
      · rintro ⟨hne, n, hnode, hsel⟩
        cases hget : cs.get? i with
        | none =>
          rw [nodeAt_cons_none tg a rest hget] at hnode
          exact Option.noConfusion hnode
        | some c =>
          rw [nodeAt_cons_some tg a rest hget] at hnode
          cases rest with
          | nil =>
            rw [nodeAt_nil] at hnode
            cases hnode
            exact ⟨i, n, [], hget, by rw [Nat.zero_add], Or.inl ⟨rfl, hsel⟩⟩
          | cons r2 rr =>
            refine ⟨i, c, r2 :: rr, hget, by rw [Nat.zero_add], Or.inr ?_⟩
            exact (ih c).mpr ⟨List.cons_ne_nil r2 rr, n, hnode, hsel⟩

end SvgSmart

namespace SvgSmart

/-! Consequences of the querySelectorAll characterization. -/

theorem mem_withG_of_mem_shape (t : Node) (p : Path) (h : p ∈ subMatches shapeTag t) :
    p ∈ subMatches withGTag t := by
  obtain ⟨hne, n, hn, hsel⟩ := (mem_subMatches_iff shapeTag p t).mp h
  exact (mem_subMatches_iff withGTag p t).mpr ⟨hne, n, hn, by simp [withGTag, hsel]⟩

theorem isSome_nodeAt_of_mem (sel : String → Bool) (t : Node) (p : Path)
    (h : p ∈ subMatches sel t) : (nodeAt t p).isSome = true := by
  obtain ⟨-, n, hn, -⟩ := (mem_subMatches_iff sel p t).mp h
  rw [hn]; rfl

theorem ne_nil_of_mem (sel : String → Bool) (t : Node) (p : Path)
    (h : p ∈ subMatches sel t) : p ≠ [] :=
  ((mem_subMatches_iff sel p t).mp h).1

theorem closestGAttr_spec (t : Node) (p : Path) (k : String) (q : Path)
    (h : closestGAttr t p k = some q) :
    ∃ n, nodeAt t q = some n ∧ n.tag = "g" ∧ (getAttr n k).isSome = true := by
  have hp := List.find?_some h
  cases hn : nodeAt t q with
  | none => rw [hn] at hp; exact Bool.noConfusion hp
  | some n =>
    rw [hn] at hp
    simp only [Bool.and_eq_true, beq_iff_eq] at hp
    exact ⟨n, rfl, hp.1, hp.2⟩

theorem mem_withG_of_g_tag (t : Node) (q : Path) (n : Node) (hq : q ≠ [])
    (hn : nodeAt t q = some n) (htag : n.tag = "g") : q ∈ subMatches withGTag t :=
  (mem_subMatches_iff withGTag q t).mpr ⟨hq, n, hn, by simp [withGTag, shapeTag, htag]⟩

/-! removeAt interacts with appended children and in-place mutation. -/

theorem removeAt_single (tg : String) (a : List (String × String)) (cs : List Node) (i : Nat) :
    removeAt (Node.mk tg a cs) [i] = Node.mk tg a (cs.eraseIdx i) := rfl

theorem removeAt_cons2 (tg : String) (a : List (String × String)) (cs : List Node)
    (i j : Nat) (q : Path) :
    removeAt (Node.mk tg a cs) (i :: j :: q) =
      Node.mk tg a (modIdx cs i (fun c => removeAt c (j :: q))) := rfl

theorem removeAt_appendChildAt_self (t : Node) (q : Path) (c : Node) (hne : q ≠ []) :
    removeAt (appendChildAt t q c) q = removeAt t q := by
  induction q generalizing t with
  | nil => exact absurd rfl hne
  | cons i qq ih =>
    cases t with
    | mk tg a cs =>
      cases qq with
      | nil =>
        rw [appendChildAt_cons, removeAt_single, removeAt_single, eraseIdx_modIdx]
      | cons j rr =>
        rw [appendChildAt_cons, removeAt_cons2, removeAt_cons2, modIdx_modIdx_self]
        congr 1
        apply modIdx_congr_of_get?
        intro d _
        exact ih d (List.cons_ne_nil j rr)

/-! Attribute-only mutation elsewhere does not change a node's attribute list. -/

theorem attrsAt_modAt_attrOnly_ne (f : Node → Node)
    (F : String → List (String × String) → List (String × String))
    (hf : ∀ tg a cs, f (Node.mk tg a cs) = Node.mk tg (F tg a) cs) :
    ∀ (p q : Path) (t : Node), p ≠ q →
      (nodeAt (modAt t q f) p).map Node.attrs = (nodeAt t p).map Node.attrs := by
  intro p
  induction p with
  | nil =>
    intro q t hne
    cases q with
    | nil => exact absurd rfl hne
    | cons j qq =>
      cases t with
      | mk tg a cs => rw [modAt_cons, nodeAt_nil, nodeAt_nil]; rfl
  | cons i pp ih =>
    intro q t hne
    cases t with
    | mk tg a cs =>
      cases q with
      | nil =>
        rw [modAt_nil, hf, nodeAt_cons, nodeAt_cons]
      | cons j qq =>
        rw [modAt_cons, nodeAt_cons, nodeAt_cons]
        by_cases hij : i = j
        · subst hij
          rw [get?_modIdx_self]
          cases hc : cs.get? i with
          | none => rfl
          | some d =>
            have hppqq : pp ≠ qq := by
              intro hcc; exact hne (by rw [hcc])
            simpa using ih qq d hppqq
        · rw [get?_modIdx_ne cs j i _ (fun hc => hij hc.symm)]

theorem nodeAt_appendChildAt_of_valid (t : Node) (q : Path) (c : Node) :
    ∀ (r : Path) (n : Node), nodeAt t r = some n →
      ∃ m, nodeAt (appendChildAt t q c) r = some m ∧ m.tag = n.tag ∧ m.attrs = n.attrs := by
  intro r
  induction r generalizing t q with
  | nil =>
    intro n hn
    rw [nodeAt_nil] at hn
    cases hn
    cases t with
    | mk tg a cs =>
      cases q with
      | nil => exact ⟨Node.mk tg a (cs ++ [c]), by rw [appendChildAt_nil, nodeAt_nil], rfl, rfl⟩
      | cons j qq =>
        exact ⟨Node.mk tg a (modIdx cs j (fun d => appendChildAt d qq c)),
          by rw [appendChildAt_cons, nodeAt_nil], rfl, rfl⟩
  | cons i rr ih =>
    intro n hn
    cases t with
    | mk tg a cs =>
      cases hget : cs.get? i with
      | none =>
        rw [nodeAt_cons_none tg a rr hget] at hn
        exact Option.noConfusion hn
      | some d =>
        rw [nodeAt_cons_some tg a rr hget] at hn
        cases q with
        | nil =>
          refine ⟨n, ?_, rfl, rfl⟩
          rw [appendChildAt_nil]
          have hget2 : (cs ++ [c]).get? i = some d := by
            obtain ⟨hlt, -⟩ := List.get?_eq_some.mp hget
            rw [List.get?_append hlt]
            exact hget
          rw [nodeAt_cons_some tg a rr hget2]
          exact hn
        | cons j qq =>
          rw [appendChildAt_cons]
          by_cases hij : i = j
          · subst hij
            obtain ⟨m, hm, htag, hattrs⟩ := ih d qq n hn
            refine ⟨m, ?_, htag, hattrs⟩
            have : (modIdx cs i fun d2 => appendChildAt d2 qq c).get? i = some (appendChildAt d qq c) := by
              rw [get?_modIdx_self, hget]; rfl
            rw [nodeAt_cons_some tg a rr this]
            exact hm
          · refine ⟨n, ?_, rfl, rfl⟩
            have : (modIdx cs j fun d2 => appendChildAt d2 qq c).get? i = some d := by
              rw [get?_modIdx_ne cs j i _ (fun hc => hij hc.symm)]
              exact hget
            rw [nodeAt_cons_some tg a rr this]
            exact hn

end SvgSmart

namespace SvgSmart

/-! The record-restoration fold of resetColors. -/

theorem tag_setAttr (k v : String) (n : Node) : (setAttr k v n).tag = n.tag := by
  cases n; rfl

theorem restoreElements_nil (P : List Path) (t : Node) : restoreElements [] P t = t := rfl

theorem restoreElements_cons (r : ElemRecord) (rs : List ElemRecord) (P : List Path) (t : Node) :
    restoreElements (r :: rs) P t = restoreElements rs P (restoreStep P t r) := rfl

theorem restoreStep_get_none (P : List Path) (t : Node) (rec : ElemRecord)
    (h : P.get? rec.index = none) : restoreStep P t rec = t := by
  unfold restoreStep
  rw [h]

theorem restoreStep_node_none (P : List Path) (t : Node) (rec : ElemRecord) (p : Path)
    (h : P.get? rec.index = some p) (hn : nodeAt t p = none) : restoreStep P t rec = t := by
  simp only [restoreStep, h, hn]

theorem restoreStep_guard_false (P : List Path) (t : Node) (rec : ElemRecord) (p : Path)
    (el : Node) (h : P.get? rec.index = some p) (hn : nodeAt t p = some el)
    (hg : (el.tag == rec.tagName) = false) : restoreStep P t rec = t := by
  simp only [restoreStep, h, hn, hg, Bool.false_eq_true, if_false]

theorem restoreStep_guard_true (P : List Path) (t : Node) (rec : ElemRecord) (p : Path)
    (el : Node) (h : P.get? rec.index = some p) (hn : nodeAt t p = some el)
    (hg : (el.tag == rec.tagName) = true) :
    restoreStep P t rec = modAt t p (restoreRecord rec) := by
  simp only [restoreStep, h, hn, hg, if_true]

theorem restoreElements_id_of_steps (recs : List ElemRecord) (P : List Path) (t : Node)
    (h : ∀ rec ∈ recs, restoreStep P t rec = t) : restoreElements recs P t = t := by
  induction recs with
  | nil => rfl
  | cons r rs ih =>
    rw [restoreElements_cons, h r (List.mem_cons_self r rs)]
    exact ih (fun rec hm => h rec (List.mem_cons_of_mem r hm))

theorem restoreElements_recordsOf_self (u : Node) :
    restoreElements (recordsOf u) (subMatches withGTag u) u = u := by
  apply restoreElements_id_of_steps
  intro rec hmem
  obtain ⟨⟨j, p⟩, henum, heq⟩ := List.mem_map.mp hmem
  have hget : (subMatches withGTag u).get? j = some p := List.mk_mem_enum_iff_get?.mp henum
  have hmemP : p ∈ subMatches withGTag u := List.get?_mem hget
  have hvalid := isSome_nodeAt_of_mem withGTag u p hmemP
  cases hel : nodeAt u p with
  | none => rw [hel] at hvalid; exact Bool.noConfusion hvalid
  | some el =>
    simp only [hel] at heq
    have hidx : rec.index = j := by rw [← heq]
    have htagv : rec.tagName = el.tag := by rw [← heq]
    rw [restoreStep_guard_true (subMatches withGTag u) u rec p el (by rw [hidx]; exact hget)
      hel (by rw [htagv]; exact beq_self_eq_true el.tag)]
    apply modAt_id
    intro n hn
    rw [hel] at hn
    cases hn
    cases el with
    | mk tg a cs =>
      rw [restoreRecord_mk]
      rw [restoreAttrs_self rec a (by rw [← heq]; rfl) (by rw [← heq]; rfl) (by rw [← heq]; rfl)]

theorem map_attrs_to_hasKey {t1 t2 : Node} {q : Path} (k : String)
    (h : (nodeAt t1 q).map Node.attrs = (nodeAt t2 q).map Node.attrs) :
    (nodeAt t1 q).map (fun n => hasKey n.attrs k) = (nodeAt t2 q).map (fun n => hasKey n.attrs k) := by
  cases h1 : nodeAt t1 q with
  | none =>
    rw [h1] at h
    cases h2 : nodeAt t2 q with
    | none => rfl
    | some m => rw [h2] at h; exact Option.noConfusion h
  | some n =>
    rw [h1] at h
    cases h2 : nodeAt t2 q with
    | none => rw [h2] at h; exact Option.noConfusion h
    | some m =>
      rw [h2] at h
      simp only [Option.map_some', Option.some.injEq] at h ⊢
      rw [h]

theorem restoreElements_absorb (k v : String) (hk : k = "fill" ∨ k = "stroke") :
    ∀ (recs : List ElemRecord) (P : List Path) (t : Node) (p : Path),
      (∀ rec ∈ recs, P.get? rec.index = some p →
        (nodeAt t p).map Node.tag = some rec.tagName ∧
          (k = "stroke" → rec.fill.isSome = true →
            (nodeAt t p).map (fun n => hasKey n.attrs "fill") = some true)) →
      (∃ rec ∈ recs, P.get? rec.index = some p) →
      restoreElements recs P (modAt t p (setAttr k v)) = restoreElements recs P t := by
  intro recs
  induction recs with
  | nil =>
    intro P t p _ hex
    obtain ⟨rec, hmem, -⟩ := hex
    exact absurd hmem (List.not_mem_nil rec)
  | cons r rs ih =>
    intro P t p hall hex
    rw [restoreElements_cons, restoreElements_cons]
    by_cases hr : P.get? r.index = some p
    · obtain ⟨htag, hkf⟩ := hall r (List.mem_cons_self r rs) hr
      cases hel : nodeAt t p with
      | none => rw [hel] at htag; exact Option.noConfusion htag
      | some el =>
        rw [hel] at htag
        simp only [Option.map_some', Option.some.injEq] at htag
        have hLnode : nodeAt (modAt t p (setAttr k v)) p = some (setAttr k v el) := by
          rw [nodeAt_modAt_self, hel]; rfl
        have hguard : ((setAttr k v el).tag == r.tagName) = true := by
          rw [tag_setAttr, htag]; exact beq_self_eq_true r.tagName
        rw [restoreStep_guard_true P (modAt t p (setAttr k v)) r p (setAttr k v el) hr hLnode hguard]
        rw [restoreStep_guard_true P t r p el hr hel (by rw [htag]; exact beq_self_eq_true r.tagName)]
        rw [modAt_modAt_self]
        congr 1
        apply modAt_congr
        intro n hn
        rw [hel] at hn
        cases hn
        cases el with
        | mk tg a cs =>
          rw [setAttr_mk, restoreRecord_mk, restoreRecord_mk]
          rcases hk with hkf2 | hks
          · subst hkf2
            rw [restoreAttrs_absorb_fill]
          · subst hks
            rw [restoreAttrs_absorb_stroke]
            intro hsome
            have := hkf rfl hsome
            rw [hel] at this
            simpa using this
    · cases hget : P.get? r.index with
      | none =>
        rw [restoreStep_get_none P _ r hget, restoreStep_get_none P t r hget]
        apply ih P t p
        · exact fun rec hm hp => hall rec (List.mem_cons_of_mem r hm) hp
        · obtain ⟨rec, hmem, hp⟩ := hex
          rcases List.mem_cons.mp hmem with hh | hh
          · subst hh; exact absurd hp hr
          · exact ⟨rec, hh, hp⟩
      | some p2 =>
        have hne : p2 ≠ p := fun hcc => hr (by rw [hget, hcc])
        have hex2 : ∃ rec ∈ rs, P.get? rec.index = some p := by
          obtain ⟨rec, hmem, hp⟩ := hex
          rcases List.mem_cons.mp hmem with hh | hh
          · subst hh; exact absurd hp hr
          · exact ⟨rec, hh, hp⟩
        cases hel2 : nodeAt t p2 with
        | none =>
          have hL : nodeAt (modAt t p (setAttr k v)) p2 = none := by
            have hiso := isSomeAt_modAt_attrOnly t p (setAttr k v)
              (fun _ a => setAttrList a k v) (fun tg a cs => setAttr_mk k v tg a cs) p2
            rw [hel2] at hiso
            cases hx : nodeAt (modAt t p (setAttr k v)) p2 with
            | none => rfl
            | some m => rw [hx] at hiso; exact Bool.noConfusion hiso
          rw [restoreStep_node_none P _ r p2 hget hL, restoreStep_node_none P t r p2 hget hel2]
          exact ih P t p (fun rec hm hp => hall rec (List.mem_cons_of_mem r hm) hp) hex2
        | some el2 =>
          have htagEq : (nodeAt (modAt t p (setAttr k v)) p2).map Node.tag = some el2.tag := by
            rw [tagAt_modAt_attrOnly t p (setAttr k v) (fun _ a => setAttrList a k v)
              (fun tg a cs => setAttr_mk k v tg a cs) p2, hel2]
            rfl
          cases hel2L : nodeAt (modAt t p (setAttr k v)) p2 with
          | none => rw [hel2L] at htagEq; exact Option.noConfusion htagEq
          | some el2L =>
            rw [hel2L] at htagEq
            simp only [Option.map_some', Option.some.injEq] at htagEq
            by_cases hguard : (el2.tag == r.tagName) = true
            · rw [restoreStep_guard_true P _ r p2 el2L hget hel2L (by rw [htagEq]; exact hguard)]
              rw [restoreStep_guard_true P t r p2 el2 hget hel2 hguard]
              rw [modAt_comm_attr_attr (setAttr k v) (restoreRecord r)
                (fun _ a => setAttrList a k v) (fun _ a => restoreAttrs r a)
                (fun tg a cs => setAttr_mk k v tg a cs)
                (fun tg a cs => restoreRecord_mk r tg a cs) p p2 t (fun hcc => hne hcc.symm)]
              apply ih P (modAt t p2 (restoreRecord r)) p
              · intro rec hm hp
                obtain ⟨htag2, hkf2⟩ := hall rec (List.mem_cons_of_mem r hm) hp
                constructor
                · rw [tagAt_modAt_attrOnly t p2 (restoreRecord r) (fun _ a => restoreAttrs r a)
                    (fun tg a cs => restoreRecord_mk r tg a cs) p]
                  exact htag2
                · intro hks hsome
                  have hattrs := attrsAt_modAt_attrOnly_ne (restoreRecord r)
                    (fun _ a => restoreAttrs r a) (fun tg a cs => restoreRecord_mk r tg a cs)
                    p p2 t (fun hcc => hne hcc.symm)
                  rw [map_attrs_to_hasKey "fill" hattrs]
                  exact hkf2 hks hsome
              · exact hex2
            · have hgf : (el2.tag == r.tagName) = false := by
                cases h2b : (el2.tag == r.tagName) with
                | true => exact absurd h2b hguard
                | false => rfl
              have hguardL : (el2L.tag == r.tagName) = false := by
                rw [htagEq]; exact hgf
              rw [restoreStep_guard_false P _ r p2 el2L hget hel2L hguardL]
              rw [restoreStep_guard_false P t r p2 el2 hget hel2 hgf]
              exact ih P t p (fun rec hm hp => hall rec (List.mem_cons_of_mem r hm) hp) hex2

end SvgSmart

namespace SvgSmart

theorem restoreElements_appendChildAt (c : Node) :
    ∀ (recs : List ElemRecord) (P : List Path) (t : Node) (q : Path),
      (∀ rec ∈ recs, ∀ p2, P.get? rec.index = some p2 → (nodeAt t p2).isSome = true) →
      restoreElements recs P (appendChildAt t q c) = appendChildAt (restoreElements recs P t) q c := by
  intro recs
  induction recs with
  | nil => intro P t q _; rfl
  | cons r rs ih =>
    intro P t q hvalid
    rw [restoreElements_cons, restoreElements_cons]
    cases hget : P.get? r.index with
    | none =>
      rw [restoreStep_get_none P _ r hget, restoreStep_get_none P t r hget]
      exact ih P t q (fun rec hm => hvalid rec (List.mem_cons_of_mem r hm))
    | some p2 =>
      have hsome := hvalid r (List.mem_cons_self r rs) p2 hget
      cases hel2 : nodeAt t p2 with
      | none => rw [hel2] at hsome; exact Bool.noConfusion hsome
      | some el2 =>
        obtain ⟨m, hm, htag, -⟩ := nodeAt_appendChildAt_of_valid t q c p2 el2 hel2
        by_cases hguard : (el2.tag == r.tagName) = true
        · rw [restoreStep_guard_true P _ r p2 m hget hm (by rw [htag]; exact hguard)]
          rw [restoreStep_guard_true P t r p2 el2 hget hel2 hguard]
          rw [modAt_appendChildAt_comm (restoreRecord r) (fun _ a => restoreAttrs r a)
            (fun tg a cs => restoreRecord_mk r tg a cs) p2 q t c (by rw [hel2]; rfl)]
          apply ih P (modAt t p2 (restoreRecord r)) q
          intro rec hmm p3 hp3
          rw [isSomeAt_modAt_attrOnly t p2 (restoreRecord r) (fun _ a => restoreAttrs r a)
            (fun tg a cs => restoreRecord_mk r tg a cs) p3]
          exact hvalid rec (List.mem_cons_of_mem r hmm) p3 hp3
        · have hgf : (el2.tag == r.tagName) = false := by
            cases h2b : (el2.tag == r.tagName) with
            | true => exact absurd h2b hguard
            | false => rfl
          rw [restoreStep_guard_false P _ r p2 m hget hm (by rw [htag]; exact hgf)]
          rw [restoreStep_guard_false P t r p2 el2 hget hel2 hgf]
          exact ih P t q (fun rec hm2 => hvalid rec (List.mem_cons_of_mem r hm2))

theorem restoreElements_insertFirst (d : Node) :
    ∀ (recs : List ElemRecord) (P : List Path) (t : Node),
      (∀ rec ∈ recs, ∀ p2, P.get? rec.index = some p2 → p2 ≠ []) →
      restoreElements recs (P.map bumpPath) (insertFirst d t) =
        insertFirst d (restoreElements recs P t) := by
  intro recs
  induction recs with
  | nil => intro P t _; rfl
  | cons r rs ih =>
    intro P t hne
    rw [restoreElements_cons, restoreElements_cons]
    cases hget : P.get? r.index with
    | none =>
      have hgetb : (P.map bumpPath).get? r.index = none := by
        rw [List.get?_map, hget]; rfl
      rw [restoreStep_get_none _ _ r hgetb, restoreStep_get_none P t r hget]
      exact ih P t (fun rec hm => hne rec (List.mem_cons_of_mem r hm))
    | some p2 =>
      have hp2ne := hne r (List.mem_cons_self r rs) p2 hget
      cases p2 with
      | nil => exact absurd rfl hp2ne
      | cons h2 rr =>
        have hgetb : (P.map bumpPath).get? r.index = some ((h2 + 1) :: rr) := by
          rw [List.get?_map, hget]; rfl
        have hnode : nodeAt (insertFirst d t) ((h2 + 1) :: rr) = nodeAt t (h2 :: rr) :=
          nodeAt_insertFirst_bump d t h2 rr
        cases hel2 : nodeAt t (h2 :: rr) with
        | none =>
          rw [restoreStep_node_none _ _ r _ hgetb (by rw [hnode]; exact hel2)]
          rw [restoreStep_node_none P t r _ hget hel2]
          exact ih P t (fun rec hm => hne rec (List.mem_cons_of_mem r hm))
        | some el2 =>
          by_cases hguard : (el2.tag == r.tagName) = true
          · rw [restoreStep_guard_true _ _ r _ el2 hgetb (by rw [hnode]; exact hel2) hguard]
            rw [restoreStep_guard_true P t r _ el2 hget hel2 hguard]
            rw [modAt_insertFirst_bump d t h2 rr (restoreRecord r)]
            exact ih P (modAt t (h2 :: rr) (restoreRecord r))
              (fun rec hm => hne rec (List.mem_cons_of_mem r hm))
          · have hgf : (el2.tag == r.tagName) = false := by
              cases h2b : (el2.tag == r.tagName) with
              | true => exact absurd h2b hguard
              | false => rfl
            rw [restoreStep_guard_false _ _ r _ el2 hgetb (by rw [hnode]; exact hel2) hgf]
            rw [restoreStep_guard_false P t r _ el2 hget hel2 hgf]
            exact ih P t (fun rec hm => hne rec (List.mem_cons_of_mem r hm))

theorem stripA_restoreStep (P : List Path) (t : Node) (rec : ElemRecord) :
    stripA (restoreStep P t rec) = stripA t := by
  cases hget : P.get? rec.index with
  | none => rw [restoreStep_get_none P t rec hget]
  | some p =>
    cases hel : nodeAt t p with
    | none => rw [restoreStep_node_none P t rec p hget hel]
    | some el =>
      by_cases hguard : (el.tag == rec.tagName) = true
      · rw [restoreStep_guard_true P t rec p el hget hel hguard]
        exact stripA_modAt_attrOnly t p (restoreRecord rec) (fun _ a => restoreAttrs rec a)
          (fun tg a cs => restoreRecord_mk rec tg a cs)
      · have hgf : (el.tag == rec.tagName) = false := by
          cases h2b : (el.tag == rec.tagName) with
          | true => exact absurd h2b hguard
          | false => rfl
        rw [restoreStep_guard_false P t rec p el hget hel hgf]

theorem stripA_restoreElements (recs : List ElemRecord) (P : List Path) (t : Node) :
    stripA (restoreElements recs P t) = stripA t := by
  induction recs generalizing t with
  | nil => rfl
  | cons r rs ih =>
    rw [restoreElements_cons, ih (restoreStep P t r), stripA_restoreStep]

theorem subMatches_restoreElements (sel : String → Bool) (recs : List ElemRecord)
    (P : List Path) (t : Node) :
    subMatches sel (restoreElements recs P t) = subMatches sel t := by
  rw [← subMatches_stripA sel (restoreElements recs P t), stripA_restoreElements,
    subMatches_stripA]

end SvgSmart

namespace SvgSmart

/-! Remaining small facts needed for the apply-side invariant. -/

theorem attrs_appendChildAt (t : Node) (q : Path) (c : Node) :
    (appendChildAt t q c).attrs = t.attrs := by
  cases t with
  | mk tg a cs =>
    cases q with
    | nil => rw [appendChildAt_nil]; rfl
    | cons j qq => rw [appendChildAt_cons]; rfl

theorem tag_ensureDefs (t : Node) : (ensureDefs t).tag = t.tag := by
  unfold ensureDefs
  cases firstDefsPath t with
  | none => cases t; rfl
  | some q => rfl

theorem attrs_ensureDefs (t : Node) : (ensureDefs t).attrs = t.attrs := by
  unfold ensureDefs
  cases firstDefsPath t with
  | none => cases t; rfl
  | some q => rfl

theorem recordsOf_get? (u : Node) (j : Nat) :
    (recordsOf u).get? j = ((subMatches withGTag u).get? j).map (fun p =>
      match nodeAt u p with
      | some el =>
        { index := j, tagName := el.tag, fill := getAttr el "fill",
          stroke := getAttr el "stroke", style := getAttr el "style" }
      | none => { index := j, tagName := "", fill := none, stroke := none, style := none }) := by
  unfold recordsOf
  rw [List.get?_map]
  rw [List.get?_enum]
  cases (subMatches withGTag u).get? j with
  | none => rfl
  | some p => rfl

theorem length_recordsOf (u : Node) : (recordsOf u).length = (subMatches withGTag u).length := by
  unfold recordsOf
  rw [List.length_map, List.enum_length]

theorem recordsOf_index (u : Node) (j : Nat) (r : ElemRecord)
    (h : (recordsOf u).get? j = some r) : r.index = j := by
  rw [recordsOf_get?] at h
  cases hg : (subMatches withGTag u).get? j with
  | none => rw [hg] at h; exact Option.noConfusion h
  | some p =>
    rw [hg] at h
    simp only [Option.map_some', Option.some.injEq] at h
    cases hn : nodeAt u p with
    | none => rw [hn] at h; rw [← h]
    | some el => rw [hn] at h; rw [← h]

theorem recordsOf_self_get? (u : Node) (r : ElemRecord) (h : r ∈ recordsOf u) :
    (recordsOf u).get? r.index = some r := by
  obtain ⟨j, hj⟩ := List.get?_of_mem h
  have hidx := recordsOf_index u j r hj
  rw [← hidx] at hj
  exact hj

theorem applyColorToElement_cases (t : Node) (p : Path) (attrName color : String) :
    ∃ w, applyColorToElement t p attrName color = modAt t w (setAttr attrName color) ∧
      (w = p ∨ closestGAttr t p attrName = some w) := by
  cases h : isRealColor ((nodeAt t p).bind (fun el => getAttr el attrName)) with
  | true =>
    refine ⟨p, ?_, Or.inl rfl⟩
    simp only [applyColorToElement, h, Bool.not_true, Bool.false_eq_true, if_false]
  | false =>
    cases hc : closestGAttr t p attrName with
    | none =>
      refine ⟨p, ?_, Or.inl rfl⟩
      simp only [applyColorToElement, h, Bool.not_false, if_true, hc]
    | some w =>
      refine ⟨w, ?_, Or.inr rfl⟩
      simp only [applyColorToElement, h, Bool.not_false, if_true, hc]

theorem gradient_subMatches_nil (sel : String → Bool) (A s1 s2 : List (String × String))
    (h : sel "stop" = false) :
    subMatches sel (Node.mk "linearGradient" A [Node.mk "stop" s1 [], Node.mk "stop" s2 []]) = [] := by
  rw [subMatches_mk]
  show subMatches.go sel [Node.mk "stop" s1 [], Node.mk "stop" s2 []] 0 = []
  simp [subMatches.go, Node.tag, h, subMatches_mk]

theorem generateRandomGradient_shape (cfg : Config) (validator : Option (String → Bool))
    (o : Oracle) (k : Nat) (id : String) (now : Nat) :
    ∃ A s1 s2, (generateRandomGradient cfg validator o k id now).1.gradient =
      Node.mk "linearGradient" A [Node.mk "stop" s1 [], Node.mk "stop" s2 []] :=
  ⟨[("id", "gradient-" ++ id ++ "-" ++ natToStr now), ("x1", "0%"), ("y1", "0%"),
    ("x2", "100%"), ("y2", "100%")],
   [("offset", "0%"), ("stop-color", (generateRandomColor cfg validator o k).1)],
   [("offset", "100%"),
    ("stop-color", (generateRandomColor cfg validator o (generateRandomColor cfg validator o k).2).1)],
   rfl⟩

end SvgSmart

namespace SvgSmart

theorem removeFirstDefs_of_first (u : Node) (q : Path) (h : firstDefsPath u = some q) :
    removeFirstDefs u = removeAt u q := by
  unfold removeFirstDefs
  rw [h]

theorem firstDefsPath_congr {u w : Node} (h : subMatches defsTag u = subMatches defsTag w) :
    firstDefsPath u = firstDefsPath w := by
  unfold firstDefsPath
  rw [h]

/-! The element-loop invariant survives one attribute write at a queried path. -/

theorem ApplyInv_setAttr (svg t0 t : Node) (p : Path) (k v : String)
    (hk : k = "fill" ∨ k = "stroke")
    (hmem : p ∈ subMatches withGTag t)
    (hinv : ApplyInv svg t0 t) :
    ApplyInv svg t0 (modAt t p (setAttr k v)) := by
  obtain ⟨hlen, hW, hS, hD, hT, hA, hTAGS, hHKF, hRES⟩ := hinv
  have hchar : ∀ tg a cs, setAttr k v (Node.mk tg a cs) = Node.mk tg (setAttrList a k v) cs :=
    fun tg a cs => setAttr_mk k v tg a cs
  have hpne : p ≠ [] := ne_nil_of_mem withGTag t p hmem
  have hmem0 : p ∈ subMatches withGTag t0 := by rw [← hW]; exact hmem
  refine ⟨hlen, ?_, ?_, ?_, ?_, ?_, ?_, ?_, ?_⟩
  · rw [subMatches_modAt_attrOnly withGTag t p _ _ hchar]; exact hW
  · rw [subMatches_modAt_attrOnly shapeTag t p _ _ hchar]; exact hS
  · rw [subMatches_modAt_attrOnly defsTag t p _ _ hchar]; exact hD
  · cases p with
    | nil => exact absurd rfl hpne
    | cons i pp => rw [tag_modAt_cons]; exact hT
  · cases p with
    | nil => exact absurd rfl hpne
    | cons i pp => rw [attrs_modAt_cons]; exact hA
  · intro j p2 hjp
    rw [tagAt_modAt_attrOnly t p _ _ hchar p2]
    exact hTAGS j p2 hjp
  · intro j p2 r n hjp hrec hnode hsome
    by_cases hpp : p2 = p
    · subst hpp
      rw [nodeAt_modAt_self] at hnode
      cases hel : nodeAt t p2 with
      | none => rw [hel] at hnode; exact Option.noConfusion hnode
      | some el =>
        rw [hel] at hnode
        simp only [Option.map_some', Option.some.injEq] at hnode
        have hprev := hHKF j p2 r el hjp hrec hel hsome
        rw [← hnode]
        cases el with
        | mk tg a cs =>
          rw [setAttr_mk]
          show hasKey (setAttrList a k v) "fill" = true
          rw [hasKey_setAttrList]
          simp only [Node.attrs] at hprev
          rw [hprev]
          rfl
    · have hattrs := attrsAt_modAt_attrOnly_ne (setAttr k v) _ hchar p2 p t hpp
      rw [hnode] at hattrs
      cases hel : nodeAt t p2 with
      | none => rw [hel] at hattrs; exact Option.noConfusion hattrs
      | some m =>
        rw [hel] at hattrs
        simp only [Option.map_some', Option.some.injEq] at hattrs
        have := hHKF j p2 r m hjp hrec hel hsome
        rw [hattrs]
        exact this
  · rw [restoreElements_absorb k v hk (recordsOf svg) (subMatches withGTag t0) t p ?hall ?hex]
    · exact hRES
    case hall =>
      intro rec hrecmem hrecp
      have hself := recordsOf_self_get? svg rec hrecmem
      have htg := hTAGS rec.index p hrecp
      rw [hself] at htg
      constructor
      · exact htg.symm
      · intro _ hsome
        cases hel : nodeAt t p with
        | none => rw [hel] at htg; exact Option.noConfusion htg
        | some el =>
          have := hHKF rec.index p rec el hrecp hself hel hsome
          simp only [Option.map_some', Option.some.injEq]
          exact this
    case hex =>
      obtain ⟨j, hj⟩ := List.get?_of_mem hmem0
      have hjlt : j < (subMatches withGTag t0).length := by
        obtain ⟨hlt, -⟩ := List.get?_eq_some.mp hj
        exact hlt
      cases hr : (recordsOf svg).get? j with
      | none =>
        have := List.get?_eq_none.mp hr
        omega
      | some rec =>
        refine ⟨rec, List.get?_mem hr, ?_⟩
        rw [recordsOf_index svg j rec hr]
        exact hj

/-! The element-loop invariant survives appending a gradient definition into the
    defs container. -/

theorem ApplyInv_append (svg t0 t : Node) (junk : Node) (q0 : Path)
    (hq0 : firstDefsPath t0 = some q0)
    (hjw : withGTag junk.tag = false) (hjs : shapeTag junk.tag = false)
    (hjd : defsTag junk.tag = false)
    (hmw : subMatches withGTag junk = []) (hms : subMatches shapeTag junk = [])
    (hmd : subMatches defsTag junk = [])
    (hinv : ApplyInv svg t0 t) :
    ApplyInv svg t0 (appendChildAt t q0 junk) := by
  obtain ⟨hlen, hW, hS, hD, hT, hA, hTAGS, hHKF, hRES⟩ := hinv
  have hq0mem : q0 ∈ subMatches defsTag t0 := by
    have := hq0
    unfold firstDefsPath at this
    exact List.mem_of_mem_head? (by rw [this]; rfl)
  have hq0ne : q0 ≠ [] := ne_nil_of_mem defsTag t0 q0 hq0mem
  refine ⟨hlen, ?_, ?_, ?_, ?_, ?_, ?_, ?_, ?_⟩
  · rw [subMatches_appendChildAt withGTag t q0 junk hjw hmw]; exact hW
  · rw [subMatches_appendChildAt shapeTag t q0 junk hjs hms]; exact hS
  · rw [subMatches_appendChildAt defsTag t q0 junk hjd hmd]; exact hD
  · rw [tag_appendChildAt]; exact hT
  · rw [attrs_appendChildAt]; exact hA
  · intro j p2 hjp
    have hmemt : p2 ∈ subMatches withGTag t := by
      rw [hW]; exact List.get?_mem hjp
    have hvalid := isSome_nodeAt_of_mem withGTag t p2 hmemt
    cases hel : nodeAt t p2 with
    | none => rw [hel] at hvalid; exact Bool.noConfusion hvalid
    | some el =>
      obtain ⟨m, hm, htag, -⟩ := nodeAt_appendChildAt_of_valid t q0 junk p2 el hel
      have ht2 := hTAGS j p2 hjp
      rw [hel] at ht2
      rw [hm, ht2]
      simp only [Option.map_some', Option.some.injEq]
      exact htag.symm
  · intro j p2 r n hjp hrec hnode hsome
    have hmemt : p2 ∈ subMatches withGTag t := by
      rw [hW]; exact List.get?_mem hjp
    have hvalid := isSome_nodeAt_of_mem withGTag t p2 hmemt
    cases hel : nodeAt t p2 with
    | none => rw [hel] at hvalid; exact Bool.noConfusion hvalid
    | some el =>
      obtain ⟨m, hm, -, hattrs⟩ := nodeAt_appendChildAt_of_valid t q0 junk p2 el hel
      rw [hm] at hnode
      cases hnode
      rw [hattrs]
      exact hHKF j p2 r el hjp hrec hel hsome
  · rw [restoreElements_appendChildAt junk (recordsOf svg) (subMatches withGTag t0) t q0 ?hvalid]
    case hvalid =>
      intro rec hrecmem p2 hp2
      have hmemt : p2 ∈ subMatches withGTag t := by
        rw [hW]; exact List.get?_mem hp2
      exact isSome_nodeAt_of_mem withGTag t p2 hmemt
    have hdefsX : subMatches defsTag (restoreElements (recordsOf svg) (subMatches withGTag t0) t) =
        subMatches defsTag t0 := by
      rw [subMatches_restoreElements, hD]
    have hfX : firstDefsPath (restoreElements (recordsOf svg) (subMatches withGTag t0) t) = some q0 := by
      rw [firstDefsPath_congr hdefsX]; exact hq0
    have hfXa : firstDefsPath
        (appendChildAt (restoreElements (recordsOf svg) (subMatches withGTag t0) t) q0 junk) = some q0 := by
      rw [firstDefsPath_congr (subMatches_appendChildAt defsTag _ q0 junk hjd hmd)]
      exact hfX
    rw [removeFirstDefs_of_first _ q0 hfXa,
      removeAt_appendChildAt_self _ q0 junk hq0ne, ← removeFirstDefs_of_first _ q0 hfX]
    exact hRES

end SvgSmart

namespace SvgSmart

theorem createDefsElement_eq (t : Node) :
    createDefsElement t = insertFirst (Node.mk "defs" [] []) t := by
  cases t; rfl

theorem ApplyInv_applyColorToElement (svg t0 t : Node) (p : Path) (k c : String)
    (hk : k = "fill" ∨ k = "stroke")
    (hmemS0 : p ∈ subMatches shapeTag t0)
    (hgtag : t0.tag ≠ "g")
    (hinv : ApplyInv svg t0 t) :
    ApplyInv svg t0 (applyColorToElement t p k c) := by
  obtain ⟨w, heq, hcases⟩ := applyColorToElement_cases t p k c
  rw [heq]
  apply ApplyInv_setAttr svg t0 t w k c hk ?_ hinv
  rcases hcases with hwp | hwc
  · subst hwp
    apply mem_withG_of_mem_shape
    rw [hinv.2.2.1]
    exact hmemS0
  · obtain ⟨n, hn, htag, -⟩ := closestGAttr_spec t p k w hwc
    have hwne : w ≠ [] := by
      intro hcc
      subst hcc
      rw [nodeAt_nil] at hn
      cases hn
      rw [hinv.2.2.2.2.1] at htag
      exact hgtag htag
    exact mem_withG_of_g_tag t w n hwne hn htag

theorem ApplyInv_processShape (cfg : Config) (filt : Option (Node → Bool))
    (validator : Option (String → Bool)) (o : Oracle) (svgId : String) (now : Nat)
    (svg t0 : Node) (q0 : Path) (idx : Nat) (p : Path) (st : PassState)
    (hq0 : firstDefsPath t0 = some q0)
    (hmemS0 : p ∈ subMatches shapeTag t0)
    (hgtag : t0.tag ≠ "g")
    (hinv : ApplyInv svg t0 st.tree) :
    ApplyInv svg t0 (processShape cfg filt validator o svgId now q0 idx p st).tree := by
  have happend : ∀ (t : Node) (k : Nat) (seed : String), ApplyInv svg t0 t →
      ApplyInv svg t0 (appendChildAt t q0
        (generateRandomGradient cfg validator o k seed now).1.gradient) := by
    intro t k seed hi
    obtain ⟨A, s1, s2, hshape⟩ := generateRandomGradient_shape cfg validator o k seed now
    rw [hshape]
    apply ApplyInv_append svg t0 t _ q0 hq0
    · exact (by decide : withGTag "linearGradient" = false)
    · exact (by decide : shapeTag "linearGradient" = false)
    · exact (by decide : defsTag "linearGradient" = false)
    · exact gradient_subMatches_nil withGTag A s1 s2 (by decide)
    · exact gradient_subMatches_nil shapeTag A s1 s2 (by decide)
    · exact gradient_subMatches_nil defsTag A s1 s2 (by decide)
    · exact hi
  simp only [processShape]
  by_cases hf : shouldProcessElementColor cfg filt st.tree p "fill" = true
  · simp only [hf, if_true]
    by_cases hg : o.grad st.g = true
    · simp only [hg, if_true]
      by_cases hs : shouldProcessElementColor cfg filt st.tree p "stroke" = true
      · simp only [hs, if_true]
        by_cases hic : cfg.independentColors = true
        · simp only [hic, if_true]
          apply ApplyInv_applyColorToElement svg t0 _ p "stroke" _ (Or.inr rfl) hmemS0 hgtag
          apply ApplyInv_applyColorToElement svg t0 _ p "fill" _ (Or.inl rfl) hmemS0 hgtag
          exact happend st.tree st.k (svgId ++ "-fill-" ++ natToStr idx) hinv
        · simp only [hic, Bool.false_eq_true, if_false]
          apply ApplyInv_applyColorToElement svg t0 _ p "fill" _ (Or.inl rfl) hmemS0 hgtag
          exact happend st.tree st.k (svgId ++ "-fill-" ++ natToStr idx) hinv
      · simp only [hs, Bool.false_eq_true, if_false]
        apply ApplyInv_applyColorToElement svg t0 _ p "fill" _ (Or.inl rfl) hmemS0 hgtag
        exact happend st.tree st.k (svgId ++ "-fill-" ++ natToStr idx) hinv
    · simp only [hg, Bool.false_eq_true, if_false]
      by_cases hs : shouldProcessElementColor cfg filt st.tree p "stroke" = true
      · simp only [hs, if_true]
        by_cases hic : cfg.independentColors = true
        · simp only [hic, if_true]
          apply ApplyInv_applyColorToElement svg t0 _ p "stroke" _ (Or.inr rfl) hmemS0 hgtag
          exact ApplyInv_applyColorToElement svg t0 _ p "fill" _ (Or.inl rfl) hmemS0 hgtag hinv
        · simp only [hic, Bool.false_eq_true, if_false]
          exact ApplyInv_applyColorToElement svg t0 _ p "fill" _ (Or.inl rfl) hmemS0 hgtag hinv
      · simp only [hs, Bool.false_eq_true, if_false]
        exact ApplyInv_applyColorToElement svg t0 _ p "fill" _ (Or.inl rfl) hmemS0 hgtag hinv
  · simp only [hf, Bool.false_eq_true, if_false]
    by_cases hs : shouldProcessElementColor cfg filt st.tree p "stroke" = true
    · simp only [hs, if_true]
      by_cases hic : cfg.independentColors = true
      · simp only [hic, if_true]
        exact ApplyInv_applyColorToElement svg t0 _ p "stroke" _ (Or.inr rfl) hmemS0 hgtag hinv
      · simp only [hic, Bool.false_eq_true, if_false]
        exact hinv
    · simp only [hs, Bool.false_eq_true, if_false]
      exact hinv

theorem ApplyInv_applyPass (cfg : Config) (filt : Option (Node → Bool))
    (validator : Option (String → Bool)) (o : Oracle) (svgId : String) (now : Nat)
    (svg t0 : Node) (q0 : Path)
    (hq0 : firstDefsPath t0 = some q0)
    (hgtag : t0.tag ≠ "g") :
    ∀ (l : List (Nat × Path)) (st : PassState),
      (∀ ip ∈ l, ip.2 ∈ subMatches shapeTag t0) →
      ApplyInv svg t0 st.tree →
      ApplyInv svg t0 (applyPass cfg filt validator o svgId now q0 l st).tree := by
  intro l
  induction l with
  | nil => intro st _ hinv; exact hinv
  | cons ip rest ih =>
    intro st hmem hinv
    show ApplyInv svg t0 (applyPass cfg filt validator o svgId now q0 rest
      (processShape cfg filt validator o svgId now q0 ip.1 ip.2 st)).tree
    apply ih
    · exact fun ip2 hm => hmem ip2 (List.mem_cons_of_mem ip hm)
    · exact ApplyInv_processShape cfg filt validator o svgId now svg t0 q0 ip.1 ip.2 st hq0
        (hmem ip (List.mem_cons_self ip rest)) hgtag hinv

end SvgSmart

namespace SvgSmart

theorem ApplyInv_init (svg : Node) : ApplyInv svg (ensureDefs svg) (ensureDefs svg) := by
  cases hfd : firstDefsPath svg with
  | some q =>
    have he : ensureDefs svg = svg := by unfold ensureDefs; rw [hfd]
    rw [he]
    refine ⟨length_recordsOf svg, rfl, rfl, rfl, rfl, rfl, ?_, ?_, ?_⟩
    · intro j p2 hjp
      rw [recordsOf_get?, hjp]
      have hmem := List.get?_mem hjp
      have hvalid := isSome_nodeAt_of_mem withGTag svg p2 hmem
      cases hel : nodeAt svg p2 with
      | none => rw [hel] at hvalid; exact Bool.noConfusion hvalid
      | some el => simp only [hel, Option.map_some']
    · intro j p2 r n hjp hrec hnode hsome
      rw [recordsOf_get?, hjp] at hrec
      simp only [Option.map_some', Option.some.injEq, hnode] at hrec
      rw [← hrec] at hsome
      simp only at hsome
      rw [getAttr_eq_findVal, isSome_findVal_eq_hasKey] at hsome
      exact hsome
    · rw [restoreElements_recordsOf_self]
  | none =>
    have he : ensureDefs svg = insertFirst (Node.mk "defs" [] []) svg := by
      unfold ensureDefs
      rw [hfd, createDefsElement_eq]
    have hsvgdefs : subMatches defsTag svg = [] := by
      unfold firstDefsPath at hfd
      exact List.head?_eq_none_iff.mp hfd
    have hWmap : subMatches withGTag (insertFirst (Node.mk "defs" [] []) svg) =
        (subMatches withGTag svg).map bumpPath :=
      subMatches_insertFirst_nomatch withGTag _ svg (by decide) rfl
    have hDdefs : subMatches defsTag (insertFirst (Node.mk "defs" [] []) svg) = [[0]] :=
      subMatches_insertFirst_match defsTag _ svg (by decide) rfl hsvgdefs
    rw [he]
    refine ⟨?_, rfl, rfl, rfl, rfl, rfl, ?_, ?_, ?_⟩
    · rw [hWmap, List.length_map, length_recordsOf]
    · intro j p2 hjp
      rw [hWmap, List.get?_map] at hjp
      cases hpj : (subMatches withGTag svg).get? j with
      | none => rw [hpj] at hjp; exact Option.noConfusion hjp
      | some p =>
        rw [hpj] at hjp
        simp only [Option.map_some', Option.some.injEq] at hjp
        have hmem := List.get?_mem hpj
        have hpne := ne_nil_of_mem withGTag svg p hmem
        have hvalid := isSome_nodeAt_of_mem withGTag svg p hmem
        cases p with
        | nil => exact absurd rfl hpne
        | cons h2 rr =>
          rw [← hjp]
          show ((recordsOf svg).get? j).map ElemRecord.tagName =
            (nodeAt (insertFirst (Node.mk "defs" [] []) svg) (bumpPath (h2 :: rr))).map Node.tag
          show ((recordsOf svg).get? j).map ElemRecord.tagName =
            (nodeAt (insertFirst (Node.mk "defs" [] []) svg) ((h2 + 1) :: rr)).map Node.tag
          rw [nodeAt_insertFirst_bump, recordsOf_get?, hpj]
          cases hel : nodeAt svg (h2 :: rr) with
          | none => rw [hel] at hvalid; exact Bool.noConfusion hvalid
          | some el => simp only [hel, Option.map_some']
    · intro j p2 r n hjp hrec hnode hsome
      rw [hWmap, List.get?_map] at hjp
      cases hpj : (subMatches withGTag svg).get? j with
      | none => rw [hpj] at hjp; exact Option.noConfusion hjp
      | some p =>
        rw [hpj] at hjp
        simp only [Option.map_some', Option.some.injEq] at hjp
        have hmem := List.get?_mem hpj
        have hpne := ne_nil_of_mem withGTag svg p hmem
        cases p with
        | nil => exact absurd rfl hpne
        | cons h2 rr =>
          rw [← hjp] at hnode
          have hnode2 : nodeAt svg (h2 :: rr) = some n := by
            rw [← nodeAt_insertFirst_bump (Node.mk "defs" [] []) svg h2 rr]
            exact hnode
          rw [recordsOf_get?, hpj] at hrec
          simp only [Option.map_some', Option.some.injEq, hnode2] at hrec
          rw [← hrec] at hsome
          simp only at hsome
          rw [getAttr_eq_findVal, isSome_findVal_eq_hasKey] at hsome
          exact hsome
    · rw [hWmap]
      rw [restoreElements_insertFirst (Node.mk "defs" [] []) (recordsOf svg)
        (subMatches withGTag svg) svg ?hne]
      case hne =>
        intro rec hm p2 hp2
        exact ne_nil_of_mem withGTag svg p2 (List.get?_mem hp2)
      rw [restoreElements_recordsOf_self]
      have hf0 : firstDefsPath (insertFirst (Node.mk "defs" [] []) svg) = some [0] := by
        unfold firstDefsPath
        rw [hDdefs]
        rfl
      rw [removeFirstDefs_of_first _ [0] hf0, removeAt_insertFirst_zero]
      unfold removeFirstDefs
      rw [hfd]

end SvgSmart

namespace SvgSmart

theorem resetColors_success (store : Store) (t : Node) (st : OriginalState)
    (hid : (idOf t == "") = false)
    (hfind : storeFind store (idOf t) = some st) :
    resetColors store t =
      { tree :=
          (match st.defs with
            | some d =>
              insertFirst d (removeFirstDefs (restoreElements st.elements (subMatches withGTag t) t))
            | none => removeFirstDefs (restoreElements st.elements (subMatches withGTag t) t)),
        ok := true, events := [Event.resetEv (idOf t)] } := by
  simp only [resetColors, hid, hfind, Bool.false_eq_true, if_false]

theorem storeFind_insert_self (store : Store) (svgId : String) (st : OriginalState) :
    storeFind ((svgId, st) :: store) svgId = some st := by
  simp [storeFind, List.find?_cons]

theorem idOf_eq_of_attrs {t1 t2 : Node} (h : t1.attrs = t2.attrs) : idOf t1 = idOf t2 := by
  unfold idOf
  rw [getAttr_eq_findVal, getAttr_eq_findVal, h]

theorem firstDefsPath_ensureDefs (svg : Node) : ∃ q, firstDefsPath (ensureDefs svg) = some q := by
  cases hfd : firstDefsPath svg with
  | some q =>
    refine ⟨q, ?_⟩
    unfold ensureDefs
    rw [hfd]
    exact hfd
  | none =>
    refine ⟨[0], ?_⟩
    unfold ensureDefs
    rw [hfd, createDefsElement_eq]
    have hsvgdefs : subMatches defsTag svg = [] := by
      unfold firstDefsPath at hfd
      exact List.head?_eq_none_iff.mp hfd
    have hDdefs : subMatches defsTag (insertFirst (Node.mk "defs" [] []) svg) = [[0]] :=
      subMatches_insertFirst_match defsTag _ svg (by decide) rfl hsvgdefs
    unfold firstDefsPath
    rw [hDdefs]
    rfl

theorem tag_ne_g_of_svgtag {svg : Node} (h : toLowerStr svg.tag = "svg") : svg.tag ≠ "g" := by
  intro hg
  rw [hg] at h
  exact absurd h (by decide)

theorem snd_mem_of_mem_enum {α : Type} {l : List α} {i : Nat} {a : α}
    (h : (i, a) ∈ l.enum) : a ∈ l :=
  List.get?_mem (List.mk_mem_enum_iff_get?.mp h)

theorem final_defs_assembly (svg X : Node) (hX : X = removeFirstDefs svg) :
    (match firstDefsNode svg with
      | some d => insertFirst d X
      | none => X) = moveDefsFront svg := by
  subst hX
  cases hfd : firstDefsPath svg with
  | none =>
    have hnode : firstDefsNode svg = none := by
      unfold firstDefsNode
      rw [hfd]
      rfl
    rw [hnode]
    unfold moveDefsFront removeFirstDefs
    simp only [hfd]
  | some q =>
    have hmem : q ∈ subMatches defsTag svg := by
      unfold firstDefsPath at hfd
      exact List.mem_of_mem_head? (by rw [hfd]; rfl)
    have hvalid := isSome_nodeAt_of_mem defsTag svg q hmem
    cases hel : nodeAt svg q with
    | none => rw [hel] at hvalid; exact Bool.noConfusion hvalid
    | some d =>
      have hnode : firstDefsNode svg = some d := by
        unfold firstDefsNode
        rw [hfd]
        simpa using hel
      rw [hnode]
      unfold moveDefsFront removeFirstDefs
      simp only [hfd, hel]

end SvgSmart

namespace SvgSmart

theorem ensureDefs_tag (svg : Node) : (ensureDefs svg).tag = svg.tag := by
  unfold ensureDefs
  cases firstDefsPath svg with
  | some q => rfl
  | none => cases svg with | mk t a cs => rfl

theorem ensureDefs_attrs (svg : Node) : (ensureDefs svg).attrs = svg.attrs := by
  unfold ensureDefs
  cases firstDefsPath svg with
  | some q => rfl
  | none => cases svg with | mk t a cs => rfl

/-- C1: applying random colours and then resetting restores the original
    element attributes; the only residual difference is that the svg's first
    `defs` container (created fresh when absent) sits in first-child position,
    so the round-trip result is `moveDefsFront svg`, not always `svg` itself.
    The claim as stated (tree restored identically) fails when the original
    defs container was not the first child; see the counterexample. -/
theorem c1_apply_then_reset_roundtrip (cfg : Config) (filt : Option (Node → Bool))
    (validator : Option (String → Bool)) (o : Oracle) (now : Nat) (randSuffix : String)
    (store : Store) (svg : Node)
    (hTag : toLowerStr svg.tag = "svg") (hId : idOf svg ≠ "")
    (hFresh : storeFind store (idOf svg) = none) :
    resetColors (applyRandomColors cfg filt validator o now randSuffix store svg).store
        (applyRandomColors cfg filt validator o now randSuffix store svg).tree =
      { tree := moveDefsFront svg, ok := true, events := [Event.resetEv (idOf svg)] } := by
  have hbeq : (toLowerStr svg.tag == "svg") = true := beq_iff_eq.mpr hTag
  have hbid : (idOf svg == "") = false := beq_eq_false_iff_ne.mpr hId
  have hsave : saveOriginalState store svg (idOf svg) =
      (idOf svg, { elements := recordsOf svg, defs := firstDefsNode svg }) :: store := by
    unfold saveOriginalState
    rw [hFresh]
    rfl
  cases hsh : (subMatches shapeTag svg).isEmpty with
  | true =>
    have happ : applyRandomColors cfg filt validator o now randSuffix store svg =
        { tree := svg,
          store := (idOf svg, { elements := recordsOf svg, defs := firstDefsNode svg }) :: store,
          ok := false, events := [] } := by
      unfold applyRandomColors
      simp only [hbeq, Bool.not_true, Bool.false_eq_true, if_false, hbid, hsave, hsh, if_true]
    rw [happ]
    have hfind : storeFind
        ((idOf svg, ({ elements := recordsOf svg, defs := firstDefsNode svg } : OriginalState))
          :: store) (idOf svg) =
        some { elements := recordsOf svg, defs := firstDefsNode svg } :=
      storeFind_insert_self store (idOf svg) _
    rw [resetColors_success _ _ _ hbid hfind]
    simp only [restoreElements_recordsOf_self]
    rw [final_defs_assembly svg (removeFirstDefs svg) rfl]
  | false =>
    obtain ⟨q0, hq0⟩ := firstDefsPath_ensureDefs svg
    have happ : applyRandomColors cfg filt validator o now randSuffix store svg =
        { tree := (applyPass cfg filt validator o (idOf svg) now q0
            (subMatches shapeTag (ensureDefs svg)).enum
            { tree := ensureDefs svg, k := 0, g := 0, events := [], processedCount := 0 }).tree,
          store := (idOf svg, { elements := recordsOf svg, defs := firstDefsNode svg }) :: store,
          ok := true,
          events := (applyPass cfg filt validator o (idOf svg) now q0
            (subMatches shapeTag (ensureDefs svg)).enum
            { tree := ensureDefs svg, k := 0, g := 0, events := [], processedCount := 0 }).events
            ++ [Event.completeEv (applyPass cfg filt validator o (idOf svg) now q0
              (subMatches shapeTag (ensureDefs svg)).enum
              { tree := ensureDefs svg, k := 0, g := 0, events := [], processedCount := 0
              }).processedCount (subMatches shapeTag (ensureDefs svg)).length] } := by
      unfold applyRandomColors
      simp only [hbeq, Bool.not_true, Bool.false_eq_true, if_false, hbid, hsave, hsh,
        hq0, Option.getD_some]
    rw [happ]
    have hinv : ApplyInv svg (ensureDefs svg)
        (applyPass cfg filt validator o (idOf svg) now q0
          (subMatches shapeTag (ensureDefs svg)).enum
          { tree := ensureDefs svg, k := 0, g := 0, events := [], processedCount := 0 }).tree := by
      apply ApplyInv_applyPass cfg filt validator o (idOf svg) now svg (ensureDefs svg) q0 hq0
      · rw [ensureDefs_tag]
        exact tag_ne_g_of_svgtag hTag
      · intro ip hip
        obtain ⟨i, p⟩ := ip
        exact snd_mem_of_mem_enum hip
      · exact ApplyInv_init svg
    have hattrs : (applyPass cfg filt validator o (idOf svg) now q0
        (subMatches shapeTag (ensureDefs svg)).enum
        { tree := ensureDefs svg, k := 0, g := 0, events := [], processedCount := 0
        }).tree.attrs = svg.attrs := by
      rw [hinv.2.2.2.2.2.1, ensureDefs_attrs]
    have hidT : idOf (applyPass cfg filt validator o (idOf svg) now q0
        (subMatches shapeTag (ensureDefs svg)).enum
        { tree := ensureDefs svg, k := 0, g := 0, events := [], processedCount := 0
        }).tree = idOf svg :=
      idOf_eq_of_attrs hattrs
    have hbidT : (idOf (applyPass cfg filt validator o (idOf svg) now q0
        (subMatches shapeTag (ensureDefs svg)).enum
        { tree := ensureDefs svg, k := 0, g := 0, events := [], processedCount := 0
        }).tree == "") = false := by
      rw [hidT]
      exact hbid
    have hfindT : storeFind
        ((idOf svg, ({ elements := recordsOf svg, defs := firstDefsNode svg } : OriginalState))
          :: store)
        (idOf (applyPass cfg filt validator o (idOf svg) now q0
          (subMatches shapeTag (ensureDefs svg)).enum
          { tree := ensureDefs svg, k := 0, g := 0, events := [], processedCount := 0
          }).tree) = some { elements := recordsOf svg, defs := firstDefsNode svg } := by
      rw [hidT]
      exact storeFind_insert_self store (idOf svg) _
    rw [resetColors_success _ _ _ hbidT hfindT, hidT]
    simp only [hinv.2.1]
    rw [hinv.2.2.2.2.2.2.2.2]
    rw [final_defs_assembly svg (removeFirstDefs svg) rfl]

end SvgSmart

namespace SvgSmart

theorem hasStrokeHere_or (root : Node) (p : Path) (el : Node) :
    hasStrokeHere root p el =
      (isRealColor (getAttr el "stroke") || parentRealColor root p "stroke") := rfl

theorem shouldProcessElementColor_none (cfg : Config) (root : Node) (p : Path) (el : Node)
    (attrName : String) (hel : nodeAt root p = some el) :
    shouldProcessElementColor cfg none root p attrName =
      (if isRealColor (getAttr el attrName) then true
       else if parentRealColor root p attrName then true
       else if attrName == "fill" then
         if hasStrokeHere root p el && cfg.preserveLinearStyle then false else true
       else false) := by
  simp only [shouldProcessElementColor, hel, Bool.false_eq_true, if_false]
  rfl

/-- C6: an element with an own or inherited stroke and no own or inherited fill
    has its fill channel classified exactly by the negation of
    `preserveLinearStyle`: never synthesized when the flag is set, always
    permitted when it is not. -/
theorem c6_preserve_linear_controls_fill (cfg : Config) (root : Node) (p : Path) (el : Node)
    (hel : nodeAt root p = some el)
    (hstroke : hasStrokeHere root p el = true)
    (hfo : isRealColor (getAttr el "fill") = false)
    (hfp : parentRealColor root p "fill" = false) :
    shouldProcessElementColor cfg none root p "fill" = !cfg.preserveLinearStyle := by
  rw [shouldProcessElementColor_none cfg root p el "fill" hel, hfo, hfp, hstroke]
  cases cfg.preserveLinearStyle <;> rfl

theorem c6_witness :
    nodeAt (Node.mk "svg" [] [Node.mk "path" [("stroke", "#000")] []]) [0] =
        some (Node.mk "path" [("stroke", "#000")] []) ∧
      shouldProcessElementColor ⟨["#abc"], true, true⟩ none
        (Node.mk "svg" [] [Node.mk "path" [("stroke", "#000")] []]) [0] "fill" = false :=
  ⟨by decide,
    c6_preserve_linear_controls_fill
      ⟨["#abc"], true, true⟩
      (Node.mk "svg" [] [Node.mk "path" [("stroke", "#000")] []]) [0]
      (Node.mk "path" [("stroke", "#000")] []) (by decide) (by decide) (by decide) (by decide)⟩

/-- C7: an element with neither an own/inherited fill nor an own/inherited stroke
    always has its fill channel classified true (a fill gets synthesized) and its
    stroke channel classified false (a stroke is never added). -/
theorem c7_colorless_gets_fill_never_stroke (cfg : Config) (root : Node) (p : Path) (el : Node)
    (hel : nodeAt root p = some el)
    (hfo : isRealColor (getAttr el "fill") = false)
    (hfp : parentRealColor root p "fill" = false)
    (hso : isRealColor (getAttr el "stroke") = false)
    (hsp : parentRealColor root p "stroke" = false) :
    shouldProcessElementColor cfg none root p "fill" = true ∧
    shouldProcessElementColor cfg none root p "stroke" = false := by
  constructor
  · rw [shouldProcessElementColor_none cfg root p el "fill" hel, hfo, hfp]
    have hs : hasStrokeHere root p el = false := by
      rw [hasStrokeHere_or, hso, hsp]
      rfl
    rw [hs]
    cases cfg.preserveLinearStyle <;> rfl
  · rw [shouldProcessElementColor_none cfg root p el "stroke" hel, hso, hsp]
    rfl

theorem c7_witness :
    nodeAt (Node.mk "svg" [] [Node.mk "circle" [("r", "4")] []]) [0] =
        some (Node.mk "circle" [("r", "4")] []) ∧
      (shouldProcessElementColor ⟨["#abc"], true, true⟩ none
          (Node.mk "svg" [] [Node.mk "circle" [("r", "4")] []]) [0] "fill" = true ∧
        shouldProcessElementColor ⟨["#abc"], true, true⟩ none
          (Node.mk "svg" [] [Node.mk "circle" [("r", "4")] []]) [0] "stroke" = false) :=
  ⟨by decide,
    c7_colorless_gets_fill_never_stroke
      ⟨["#abc"], true, true⟩
      (Node.mk "svg" [] [Node.mk "circle" [("r", "4")] []]) [0]
      (Node.mk "circle" [("r", "4")] []) (by decide) (by decide) (by decide) (by decide)
      (by decide)⟩

/-- C8 counterexample: an element that entirely lacks an own `fill` but sits
    under a `g[fill]` ancestor does not receive the write on its own attribute
    (as the claim states for the lacks-entirely case): the write lands on the
    ancestor `g`. -/
theorem c8_counterexample :
    applyColorToElement (Node.mk "svg" [] [Node.mk "g" [("fill", "red")] [Node.mk "path" [] []]])
        [0, 0] "fill" "#123" ≠
      modAt (Node.mk "svg" [] [Node.mk "g" [("fill", "red")] [Node.mk "path" [] []]]) [0, 0]
        (setAttr "fill" "#123") ∧
    applyColorToElement (Node.mk "svg" [] [Node.mk "g" [("fill", "red")] [Node.mk "path" [] []]])
        [0, 0] "fill" "#123" =
      Node.mk "svg" [] [Node.mk "g" [("fill", "#123")] [Node.mk "path" [] []]] := by decide

/-- C8 (amended): the write target of a synthesized value is the element's own
    attribute exactly when the element's own value is a real colour, or when its
    own value is absent or a sentinel and no ancestor `g` declaring the attribute
    exists; whenever the own value is absent or a sentinel and such an ancestor
    exists, the value is written onto that nearest ancestor `g` instead. -/
theorem c8_write_target (root : Node) (p : Path) (attrName color : String) (el : Node)
    (hel : nodeAt root p = some el) :
    (isRealColor (getAttr el attrName) = true →
      applyColorToElement root p attrName color = modAt root p (setAttr attrName color)) ∧
    (∀ q, isRealColor (getAttr el attrName) = false → closestGAttr root p attrName = some q →
      applyColorToElement root p attrName color = modAt root q (setAttr attrName color)) ∧
    (isRealColor (getAttr el attrName) = false → closestGAttr root p attrName = none →
      applyColorToElement root p attrName color = modAt root p (setAttr attrName color)) := by
  refine ⟨?_, ?_, ?_⟩
  · intro h
    simp only [applyColorToElement, hel, Option.some_bind, h, Bool.not_true, Bool.false_eq_true,
      if_false]
  · intro q h hq
    simp only [applyColorToElement, hel, Option.some_bind, h, Bool.not_false, if_true, hq]
  · intro h hq
    simp only [applyColorToElement, hel, Option.some_bind, h, Bool.not_false, if_true, hq]

theorem c8_write_target_witness :
    nodeAt (Node.mk "svg" [] [Node.mk "g" [("fill", "red")] [Node.mk "path" [] []]]) [0, 0] =
        some (Node.mk "path" [] []) ∧
      (∀ q, isRealColor (getAttr (Node.mk "path" [] []) "fill") = false →
        closestGAttr (Node.mk "svg" [] [Node.mk "g" [("fill", "red")] [Node.mk "path" [] []]])
          [0, 0] "fill" = some q →
        applyColorToElement
            (Node.mk "svg" [] [Node.mk "g" [("fill", "red")] [Node.mk "path" [] []]])
            [0, 0] "fill" "#123" =
          modAt (Node.mk "svg" [] [Node.mk "g" [("fill", "red")] [Node.mk "path" [] []]]) q
            (setAttr "fill" "#123")) :=
  ⟨by decide,
    (c8_write_target (Node.mk "svg" [] [Node.mk "g" [("fill", "red")] [Node.mk "path" [] []]])
      [0, 0] "fill" "#123" (Node.mk "path" [] []) (by decide)).2.1⟩

/-- C9: when the store holds no snapshot under the target's document identity
    (in particular for a target never passed to `applyRandomColors`),
    `resetColors` returns false, emits nothing, and leaves the tree unchanged. -/
theorem c9_reset_without_snapshot (store : Store) (svg : Node)
    (h : storeFind store (idOf svg) = none) :
    resetColors store svg = { tree := svg, ok := false, events := [] } := by
  unfold resetColors
  cases hid : (idOf svg == "") with
  | true => rw [if_pos hid]
  | false =>
    have hne : ¬((idOf svg == "") = true) := by simp [hid]
    rw [if_neg hne, h]

theorem c9_reset_without_snapshot_witness :
    storeFind [] (idOf (Node.mk "svg" [("id", "a")] [Node.mk "path" [("fill", "red")] []])) =
        none ∧
      resetColors [] (Node.mk "svg" [("id", "a")] [Node.mk "path" [("fill", "red")] []]) =
        { tree := Node.mk "svg" [("id", "a")] [Node.mk "path" [("fill", "red")] []],
          ok := false, events := [] } :=
  ⟨by decide,
    c9_reset_without_snapshot []
      (Node.mk "svg" [("id", "a")] [Node.mk "path" [("fill", "red")] []]) (by decide)⟩

/-- C3: `applyRandomPathColors` never writes to the snapshot store, for any
    input whatsoever, although it does mutate the tree: on a fresh target the
    mutation happens with no snapshot taken first, so a subsequent reset has
    nothing to restore from. -/
theorem c3_applyPathColors_takes_no_snapshot :
    (∀ (cfg : Config) (filt : Option (Node → Bool)) (validator : Option (String → Bool))
      (o : Oracle) (store : Store) (svg : Node) (pathIndices : Option (List Int))
      (independentColors : Bool),
      (applyRandomPathColors cfg filt validator o store svg pathIndices
        independentColors).store = store) ∧
    (applyRandomPathColors
        { colorPalette := ["#abc"], preserveLinearStyle := false, independentColors := true }
        none none { pick := fun _ => 0, grad := fun _ => false } []
        (Node.mk "svg" [("id", "s")] [Node.mk "path" [] []]) (some [0]) true).tree ≠
      Node.mk "svg" [("id", "s")] [Node.mk "path" [] []] := by
  constructor
  · intro cfg filt validator o store svg pathIndices independentColors
    simp only [applyRandomPathColors]
    split
    · rfl
    · split <;> rfl
  · decide

end SvgSmart

namespace SvgSmart

/-- C4: in the dependent-stroke mode (`independentColors` off), the stroke value
    never reuses the element's fill: `fillColor` is block-scoped to the fill
    branch, so the stroke branch raises a ReferenceError.  In
    `applyRandomColors` the per-element catch turns it into an error event and
    the element is not counted as processed; in `applyRandomPathColors` the
    error escapes the loop, the call returns false, and no stroke is written
    even though the fill mutation already happened. -/
theorem c4_dependent_stroke_reference_error :
    (applyRandomColors ⟨["#abc"], false, false⟩ none none ⟨fun _ => 0, fun _ => false⟩ 3 "x" []
        (Node.mk "svg" [("id", "s")]
          [Node.mk "defs" [] [], Node.mk "path" [("stroke", "#000")] []])).events =
      [Event.colorApplied [1] "fill" "#abc" none,
       Event.errorEv "ReferenceError: fillColor is not defined" (some 0),
       Event.completeEv 0 1] ∧
    (applyRandomPathColors ⟨["#abc"], false, false⟩ none none ⟨fun _ => 0, fun _ => false⟩ []
        (Node.mk "svg" [("id", "s")]
          [Node.mk "defs" [] [], Node.mk "path" [("stroke", "#000")] []]) none false) =
      { tree := Node.mk "svg" [("id", "s")]
          [Node.mk "defs" [] [], Node.mk "path" [("stroke", "#000"), ("fill", "#abc")] []],
        store := [], ok := false,
        events := [Event.colorApplied [1] "fill" "#abc" (some 0),
                   Event.errorEv "ReferenceError: fillColor is not defined" none] } := by
  constructor
  · decide
  · decide

theorem c1_roundtrip_witness :
    resetColors
        (applyRandomColors ⟨["#ff6b6b"], false, true⟩ none none ⟨fun _ => 0, fun _ => false⟩ 7 "x"
          [] (Node.mk "svg" [("id", "a")] [Node.mk "path" [] []])).store
        (applyRandomColors ⟨["#ff6b6b"], false, true⟩ none none ⟨fun _ => 0, fun _ => false⟩ 7 "x"
          [] (Node.mk "svg" [("id", "a")] [Node.mk "path" [] []])).tree =
      { tree := moveDefsFront (Node.mk "svg" [("id", "a")] [Node.mk "path" [] []]), ok := true,
        events := [Event.resetEv (idOf (Node.mk "svg" [("id", "a")] [Node.mk "path" [] []]))] } :=
  c1_apply_then_reset_roundtrip ⟨["#ff6b6b"], false, true⟩ none none ⟨fun _ => 0, fun _ => false⟩
    7 "x" [] (Node.mk "svg" [("id", "a")] [Node.mk "path" [] []]) (by decide) (by decide)
    (by decide)

/-- C1 counterexample: when the original defs container is not the first child,
    the reset tree has it relocated to the front, so apply-then-reset does not
    reproduce the original tree byte for byte. -/
theorem c1_defs_position_counterexample :
    (resetColors
        (applyRandomColors ⟨["#ff6b6b"], false, true⟩ none none ⟨fun _ => 0, fun _ => false⟩ 7 "x"
          [] (Node.mk "svg" [("id", "b")] [Node.mk "path" [] [], Node.mk "defs" [] []])).store
        (applyRandomColors ⟨["#ff6b6b"], false, true⟩ none none ⟨fun _ => 0, fun _ => false⟩ 7 "x"
          [] (Node.mk "svg" [("id", "b")]
            [Node.mk "path" [] [], Node.mk "defs" [] []])).tree).tree ≠
      Node.mk "svg" [("id", "b")] [Node.mk "path" [] [], Node.mk "defs" [] []] := by decide

theorem applyRandomColors_tree_cases (cfg : Config) (filt : Option (Node → Bool))
    (validator : Option (String → Bool)) (o : Oracle) (now : Nat) (randSuffix : String)
    (store : Store) (svg : Node) (hTag : toLowerStr svg.tag = "svg") :
    (applyRandomColors cfg filt validator o now randSuffix store svg).tree = svg ∨
    ∃ svgId q0, firstDefsPath (ensureDefs svg) = some q0 ∧
      (applyRandomColors cfg filt validator o now randSuffix store svg).tree =
        (applyPass cfg filt validator o svgId now q0 (subMatches shapeTag (ensureDefs svg)).enum
          { tree := ensureDefs svg, k := 0, g := 0, events := [], processedCount := 0 }).tree := by
  have hbeq : (toLowerStr svg.tag == "svg") = true := beq_iff_eq.mpr hTag
  obtain ⟨q0, hq0⟩ := firstDefsPath_ensureDefs svg
  cases hsh : (subMatches shapeTag svg).isEmpty with
  | true =>
    left
    simp only [applyRandomColors, hbeq, Bool.not_true, Bool.false_eq_true, if_false, hsh, if_true]
  | false =>
    right
    refine ⟨if (idOf svg == "") = true then "svg-" ++ natToStr now ++ "-" ++ randSuffix
      else idOf svg, q0, hq0, ?_⟩
    simp only [applyRandomColors, hbeq, Bool.not_true, Bool.false_eq_true, if_false, hsh,
      hq0, Option.getD_some]

theorem applyRandomColors_attrs (cfg : Config) (filt : Option (Node → Bool))
    (validator : Option (String → Bool)) (o : Oracle) (now : Nat) (randSuffix : String)
    (store : Store) (svg : Node) (hTag : toLowerStr svg.tag = "svg") :
    (applyRandomColors cfg filt validator o now randSuffix store svg).tree.attrs = svg.attrs := by
  rcases applyRandomColors_tree_cases cfg filt validator o now randSuffix store svg hTag with
    h | ⟨svgId, q0, hq0, h⟩
  · rw [h]
  · rw [h]
    have hinv : ApplyInv svg (ensureDefs svg)
        (applyPass cfg filt validator o svgId now q0 (subMatches shapeTag (ensureDefs svg)).enum
          { tree := ensureDefs svg, k := 0, g := 0, events := [], processedCount := 0 }).tree := by
      apply ApplyInv_applyPass cfg filt validator o svgId now svg (ensureDefs svg) q0 hq0
      · rw [ensureDefs_tag]
        exact tag_ne_g_of_svgtag hTag
      · intro ip hip
        obtain ⟨i, p⟩ := ip
        exact snd_mem_of_mem_enum hip
      · exact ApplyInv_init svg
    rw [hinv.2.2.2.2.2.1, ensureDefs_attrs]

/-- C2: `applyRandomColors` computes a generated identifier for an id-less
    target but never assigns it to the element, so after the call the element
    still has no id and `resetColors` cannot find the snapshot: it returns
    false without mutation, contradicting the claim that the element is mutated
    so a subsequent reset finds the stored snapshot. -/
theorem c2_generated_id_never_assigned (cfg : Config) (filt : Option (Node → Bool))
    (validator : Option (String → Bool)) (o : Oracle) (now : Nat) (randSuffix : String)
    (store : Store) (svg : Node)
    (hTag : toLowerStr svg.tag = "svg") (hId0 : idOf svg = "") :
    idOf (applyRandomColors cfg filt validator o now randSuffix store svg).tree = "" ∧
    resetColors (applyRandomColors cfg filt validator o now randSuffix store svg).store
        (applyRandomColors cfg filt validator o now randSuffix store svg).tree =
      { tree := (applyRandomColors cfg filt validator o now randSuffix store svg).tree,
        ok := false, events := [] } := by
  have hattrs := applyRandomColors_attrs cfg filt validator o now randSuffix store svg hTag
  have hid : idOf (applyRandomColors cfg filt validator o now randSuffix store svg).tree = "" :=
    (idOf_eq_of_attrs hattrs).trans hId0
  refine ⟨hid, ?_⟩
  unfold resetColors
  rw [if_pos (beq_iff_eq.mpr hid)]

theorem c2_generated_id_never_assigned_witness :
    idOf (applyRandomColors ⟨["#abc"], false, true⟩ none none ⟨fun _ => 0, fun _ => false⟩ 3 "x"
        [] (Node.mk "svg" [] [Node.mk "path" [] []])).tree = "" ∧
      resetColors
          (applyRandomColors ⟨["#abc"], false, true⟩ none none ⟨fun _ => 0, fun _ => false⟩ 3 "x"
            [] (Node.mk "svg" [] [Node.mk "path" [] []])).store
          (applyRandomColors ⟨["#abc"], false, true⟩ none none ⟨fun _ => 0, fun _ => false⟩ 3 "x"
            [] (Node.mk "svg" [] [Node.mk "path" [] []])).tree =
        { tree := (applyRandomColors ⟨["#abc"], false, true⟩ none none
            ⟨fun _ => 0, fun _ => false⟩ 3 "x" []
            (Node.mk "svg" [] [Node.mk "path" [] []])).tree,
          ok := false, events := [] } :=
  c2_generated_id_never_assigned ⟨["#abc"], false, true⟩ none none ⟨fun _ => 0, fun _ => false⟩
    3 "x" [] (Node.mk "svg" [] [Node.mk "path" [] []]) (by decide) (by decide)

end SvgSmart

namespace SvgSmart

theorem digitsLE_ofDigits : ∀ (fuel n : Nat), n ≤ fuel →
    Nat.ofDigits 10 (digitsLE fuel n) = n := by
  intro fuel
  induction fuel with
  | zero =>
    intro n hn
    have : n = 0 := Nat.le_zero.mp hn
    subst this
    rfl
  | succ fuel ih =>
    intro n hn
    unfold digitsLE
    cases hz : (n == 0) with
    | true =>
      have : n = 0 := beq_iff_eq.mp hz
      subst this
      rfl
    | false =>
      have hpos : 0 < n := Nat.pos_of_ne_zero (by simpa using hz)
      simp only [Bool.false_eq_true, if_false]
      rw [Nat.ofDigits_cons, ih (n / 10) ?_]
      · have := Nat.mod_add_div n 10
        omega
      · have hlt : n / 10 < n := Nat.div_lt_self hpos (by omega)
        omega

theorem digitsLE_lt_ten : ∀ (fuel n : Nat), ∀ d ∈ digitsLE fuel n, d < 10 := by
  intro fuel
  induction fuel with
  | zero => intro n d hd; exact absurd hd (List.not_mem_nil d)
  | succ fuel ih =>
    intro n d hd
    unfold digitsLE at hd
    cases hz : (n == 0) with
    | true => rw [hz] at hd; exact absurd hd (List.not_mem_nil d)
    | false =>
      rw [hz] at hd
      simp only [Bool.false_eq_true, if_false, List.mem_cons] at hd
      cases hd with
      | inl h => subst h; exact Nat.mod_lt n (by omega)
      | inr h => exact ih (n / 10) d h

theorem digitChar_inj_lt : ∀ a < 10, ∀ b < 10, Nat.digitChar a = Nat.digitChar b → a = b := by
  decide

theorem map_digitChar_inj : ∀ (l1 l2 : List Nat), (∀ d ∈ l1, d < 10) → (∀ d ∈ l2, d < 10) →
    l1.map Nat.digitChar = l2.map Nat.digitChar → l1 = l2 := by
  intro l1
  induction l1 with
  | nil =>
    intro l2 _ _ h
    exact (List.map_eq_nil.mp h.symm).symm
  | cons a t ih =>
    intro l2 h1 h2 h
    cases l2 with
    | nil => exact absurd h (by simp)
    | cons b t2 =>
      simp only [List.map_cons, List.cons.injEq] at h
      have hab : a = b :=
        digitChar_inj_lt a (h1 a (List.mem_cons_self a t)) b (h2 b (List.mem_cons_self b t2)) h.1
      have ht : t = t2 := ih t2 (fun d hd => h1 d (List.mem_cons_of_mem a hd))
        (fun d hd => h2 d (List.mem_cons_of_mem b hd)) h.2
      rw [hab, ht]

theorem natToStr_injective {m n : Nat} (h : natToStr m = natToStr n) : m = n := by
  unfold natToStr at h
  cases hm : (m == 0) with
  | true =>
    cases hn : (n == 0) with
    | true =>
      have h1 : m = 0 := beq_iff_eq.mp hm
      have h2 : n = 0 := beq_iff_eq.mp hn
      omega
    | false =>
      rw [hm, hn] at h
      simp only [if_true, Bool.false_eq_true, if_false] at h
      have hdata : String.data "0" =
          List.map Nat.digitChar ((digitsLE n n).reverse) := congrArg String.data h
      have h0 : String.data "0" = List.map Nat.digitChar [0] := by decide
      have hlist := h0.symm.trans hdata
      have hrev : [(0 : Nat)] = (digitsLE n n).reverse :=
        map_digitChar_inj [0] (digitsLE n n).reverse (by intro d hd; simp at hd; omega)
          (fun d hd => digitsLE_lt_ten n n d (List.mem_reverse.mp hd)) hlist
      have hd : digitsLE n n = [0] := by
        have := congrArg List.reverse hrev
        simpa using this.symm
      have hofd := digitsLE_ofDigits n n (Nat.le_refl n)
      rw [hd] at hofd
      simp [Nat.ofDigits] at hofd
      have : n ≠ 0 := by simpa using hn
      omega
  | false =>
    cases hn : (n == 0) with
    | true =>
      rw [hm, hn] at h
      simp only [if_true, Bool.false_eq_true, if_false] at h
      have hdata : List.map Nat.digitChar ((digitsLE m m).reverse) =
          String.data "0" := congrArg String.data h
      have h0 : String.data "0" = List.map Nat.digitChar [0] := by decide
      have hlist := hdata.trans h0
      have hrev : (digitsLE m m).reverse = [(0 : Nat)] :=
        map_digitChar_inj (digitsLE m m).reverse [0]
          (fun d hd => digitsLE_lt_ten m m d (List.mem_reverse.mp hd))
          (by intro d hd; simp at hd; omega) hlist
      have hd : digitsLE m m = [0] := by
        have := congrArg List.reverse hrev
        simpa using this
      have hofd := digitsLE_ofDigits m m (Nat.le_refl m)
      rw [hd] at hofd
      simp [Nat.ofDigits] at hofd
      have : m ≠ 0 := by simpa using hm
      omega
    | false =>
      rw [hm, hn] at h
      simp only [Bool.false_eq_true, if_false] at h
      have hlist : List.map Nat.digitChar ((digitsLE m m).reverse) =
          List.map Nat.digitChar ((digitsLE n n).reverse) := congrArg String.data h
      have hrev : (digitsLE m m).reverse = (digitsLE n n).reverse :=
        map_digitChar_inj (digitsLE m m).reverse (digitsLE n n).reverse
          (fun d hd => digitsLE_lt_ten m m d (List.mem_reverse.mp hd))
          (fun d hd => digitsLE_lt_ten n n d (List.mem_reverse.mp hd)) hlist
      have hd : digitsLE m m = digitsLE n n := by
        have := congrArg List.reverse hrev
        simpa using this
      have h1 := digitsLE_ofDigits m m (Nat.le_refl m)
      have h2 := digitsLE_ofDigits n n (Nat.le_refl n)
      rw [hd] at h1
      omega

end SvgSmart

namespace SvgSmart

/-- C5 counterexample: a second `generateRandomGradient` call made with the same
    seed in the same millisecond (the first call having advanced the random
    counter from 0 to 2) yields exactly the same reference token: the embedded
    identifier is `gradient-<id>-<Date.now()>`, derived from the wall clock
    alone, so it is not unique per call. -/
theorem c5_same_millisecond_counterexample :
    (generateRandomGradient ⟨["#a", "#b"], false, true⟩ none
        ⟨fun k => k, fun _ => false⟩ 0 "s" 7).2 = 2 ∧
    (generateRandomGradient ⟨["#a", "#b"], false, true⟩ none
        ⟨fun k => k, fun _ => false⟩ 0 "s" 7).1.url =
      (generateRandomGradient ⟨["#a", "#b"], false, true⟩ none
        ⟨fun k => k, fun _ => false⟩ 2 "s" 7).1.url := by
  constructor
  · decide
  · decide

/-- C5 (amended): the reference tokens of two `generateRandomGradient` calls
    with the same seed are distinct whenever the calls observe distinct
    `Date.now()` values; uniqueness is time-derived only, and fails within one
    millisecond. -/
theorem c5_distinct_timestamps_distinct_urls (cfg : Config)
    (validator : Option (String → Bool)) (o : Oracle) (k1 k2 : Nat) (id : String)
    (now1 now2 : Nat) (h : now1 ≠ now2) :
    (generateRandomGradient cfg validator o k1 id now1).1.url ≠
      (generateRandomGradient cfg validator o k2 id now2).1.url := by
  intro heq
  apply h
  have h1 : (generateRandomGradient cfg validator o k1 id now1).1.url =
      "url(#" ++ ("gradient-" ++ id ++ "-" ++ natToStr now1) ++ ")" := rfl
  have h2 : (generateRandomGradient cfg validator o k2 id now2).1.url =
      "url(#" ++ ("gradient-" ++ id ++ "-" ++ natToStr now2) ++ ")" := rfl
  rw [h1, h2] at heq
  have hd := congrArg String.data heq
  simp only [String.data_append, List.append_assoc] at hd
  have hd1 := List.append_cancel_left hd
  have hd2 := List.append_cancel_left hd1
  have hd3 := List.append_cancel_left hd2
  have hd4 := List.append_cancel_left hd3
  have hd5 := List.append_cancel_right hd4
  exact natToStr_injective (congrArg String.mk hd5)

theorem c5_distinct_timestamps_witness :
    (generateRandomGradient ⟨["#a"], false, true⟩ none ⟨fun _ => 0, fun _ => false⟩
        0 "s" 1).1.url ≠
      (generateRandomGradient ⟨["#a"], false, true⟩ none ⟨fun _ => 0, fun _ => false⟩
        0 "s" 2).1.url :=
  c5_distinct_timestamps_distinct_urls ⟨["#a"], false, true⟩ none ⟨fun _ => 0, fun _ => false⟩
    0 0 "s" 1 2 (by decide)

end SvgSmart

namespace SvgSmart

theorem processPathShape_indep_ok (cfg : Config) (filt : Option (Node → Bool))
    (validator : Option (String → Bool)) (o : Oracle) (index : Nat) (p : Path)
    (st : PathPassState) :
    ∃ st1, processPathShape cfg filt validator o true index p st = Except.ok st1 ∧
      st1.processedCount = st.processedCount + 1 := by
  unfold processPathShape
  cases hf : shouldProcessElementColor cfg filt st.tree p "fill" <;>
    cases hs : shouldProcessElementColor cfg filt st.tree p "stroke" <;>
      simp only [hf, hs, Bool.false_eq_true, if_false, eq_self_iff_true, if_true] <;>
        exact ⟨_, rfl, rfl⟩

theorem pathPass_indep_ok (cfg : Config) (filt : Option (Node → Bool))
    (validator : Option (String → Bool)) (o : Oracle) (len : Nat) (elements : List Path) :
    ∀ (l : List Int) (st : PathPassState), ∃ st1,
      pathPass cfg filt validator o true len elements l st = Except.ok st1 := by
  intro l
  induction l with
  | nil => intro st; exact ⟨st, rfl⟩
  | cons i rest ih =>
    intro st
    cases hc : (0 ≤ i && i < (len : Int) : Bool) with
    | true =>
      obtain ⟨st2, heq, -⟩ := processPathShape_indep_ok cfg filt validator o i.toNat
        (elements.getD i.toNat []) st
      obtain ⟨st1, h1⟩ := ih st2
      refine ⟨st1, ?_⟩
      simp only [pathPass, hc, if_true, heq]
      exact h1
    | false =>
      obtain ⟨st1, h1⟩ := ih st
      refine ⟨st1, ?_⟩
      simp only [pathPass, hc, Bool.false_eq_true, if_false]
      exact h1

theorem pathPass_filter (cfg : Config) (filt : Option (Node → Bool))
    (validator : Option (String → Bool)) (o : Oracle) (len : Nat) (elements : List Path) :
    ∀ (l : List Int) (st : PathPassState),
      pathPass cfg filt validator o true len elements l st =
        pathPass cfg filt validator o true len elements
          (l.filter (fun i => 0 ≤ i && i < (len : Int))) st := by
  intro l
  induction l with
  | nil => intro st; rfl
  | cons i rest ih =>
    intro st
    cases hc : (0 ≤ i && i < (len : Int) : Bool) with
    | true =>
      simp only [List.filter_cons, hc, if_true]
      obtain ⟨st2, heq, -⟩ := processPathShape_indep_ok cfg filt validator o i.toNat
        (elements.getD i.toNat []) st
      simp only [pathPass, hc, if_true, heq]
      exact ih st2
    | false =>
      rw [List.filter_cons_of_neg (by simp [hc])]
      simp only [pathPass, hc, Bool.false_eq_true, if_false]
      exact ih st

theorem pathPass_indep_count (cfg : Config) (filt : Option (Node → Bool))
    (validator : Option (String → Bool)) (o : Oracle) (len : Nat) (elements : List Path) :
    ∀ (l : List Int) (st st1 : PathPassState),
      pathPass cfg filt validator o true len elements l st = Except.ok st1 →
      st1.processedCount = st.processedCount +
        (l.filter (fun i => 0 ≤ i && i < (len : Int))).length := by
  intro l
  induction l with
  | nil =>
    intro st st1 h
    have hst : st = st1 := by simpa [pathPass] using h
    rw [← hst]
    simp
  | cons i rest ih =>
    intro st st1 h
    cases hc : (0 ≤ i && i < (len : Int) : Bool) with
    | true =>
      obtain ⟨st2, heq, hpc⟩ := processPathShape_indep_ok cfg filt validator o i.toNat
        (elements.getD i.toNat []) st
      simp only [pathPass, hc, if_true, heq] at h
      have hrest := ih st2 st1 h
      simp only [List.filter_cons, hc, if_true, List.length_cons]
      omega
    | false =>
      simp only [pathPass, hc, Bool.false_eq_true, if_false] at h
      rw [List.filter_cons_of_neg (by simp [hc])]
      exact ih st st1 h

/-- C10 counterexample: with an explicit indices list on a target with one
    paintable element, the call does not return true: when the stroke channel is
    processed in dependent-colour mode, the uncaught ReferenceError makes
    `applyRandomPathColors` return false. -/
theorem c10_returns_false_counterexample :
    (applyRandomPathColors ⟨["#abc"], false, false⟩ none none ⟨fun _ => 0, fun _ => false⟩ []
        (Node.mk "svg" [("id", "s")] [Node.mk "path" [("stroke", "#000")] []])
        (some [5, 0]) false).ok = false := by decide

/-- C10 (amended): with independent colours (where no ReferenceError can occur),
    a call with an explicit indices list on a target with at least one paintable
    element returns true, each out-of-range index is skipped silently (the tree
    equals the one of the call restricted to the in-range indices), and the
    complete event reports totalCount equal to the length of the requested list
    and processedCount equal to the number of in-range indices. -/
theorem c10_out_of_range_indices_skipped (cfg : Config) (filt : Option (Node → Bool))
    (validator : Option (String → Bool)) (o : Oracle) (store : Store) (svg : Node)
    (idxs : List Int) (hne : (subMatches shapeTag svg).isEmpty = false) :
    (applyRandomPathColors cfg filt validator o store svg (some idxs) true).ok = true ∧
    (applyRandomPathColors cfg filt validator o store svg (some idxs) true).tree =
      (applyRandomPathColors cfg filt validator o store svg
        (some (idxs.filter (fun i => 0 ≤ i &&
          i < ((subMatches shapeTag svg).length : Int)))) true).tree ∧
    (applyRandomPathColors cfg filt validator o store svg (some idxs) true).events.getLast? =
      some (Event.completeEv
        (idxs.filter (fun i => 0 ≤ i &&
          i < ((subMatches shapeTag svg).length : Int))).length idxs.length) := by
  obtain ⟨st1, hok⟩ := pathPass_indep_ok cfg filt validator o (subMatches shapeTag svg).length
    (subMatches shapeTag svg) idxs { tree := svg, k := 0, events := [], processedCount := 0 }
  have hcnt := pathPass_indep_count cfg filt validator o (subMatches shapeTag svg).length
    (subMatches shapeTag svg) idxs { tree := svg, k := 0, events := [], processedCount := 0 }
    st1 hok
  have hok2 : pathPass cfg filt validator o true (subMatches shapeTag svg).length
      (subMatches shapeTag svg)
      (idxs.filter (fun i => 0 ≤ i && i < ((subMatches shapeTag svg).length : Int)))
      { tree := svg, k := 0, events := [], processedCount := 0 } = Except.ok st1 := by
    rw [← pathPass_filter]
    exact hok
  simp only [applyRandomPathColors, hne, Bool.false_eq_true, if_false, Option.getD_some,
    hok, hok2]
  refine ⟨trivial, trivial, ?_⟩
  rw [List.getLast?_concat, hcnt]
  simp

end SvgSmart

namespace SvgSmart

theorem c10_out_of_range_indices_skipped_witness :
    (applyRandomPathColors ⟨["#abc"], false, true⟩ none none ⟨fun _ => 0, fun _ => false⟩ []
        (Node.mk "svg" [("id", "s")] [Node.mk "path" [] [], Node.mk "rect" [] []])
        (some [1, -2, 5, 0]) true).ok = true ∧
    (applyRandomPathColors ⟨["#abc"], false, true⟩ none none ⟨fun _ => 0, fun _ => false⟩ []
        (Node.mk "svg" [("id", "s")] [Node.mk "path" [] [], Node.mk "rect" [] []])
        (some [1, -2, 5, 0]) true).tree =
      (applyRandomPathColors ⟨["#abc"], false, true⟩ none none ⟨fun _ => 0, fun _ => false⟩ []
        (Node.mk "svg" [("id", "s")] [Node.mk "path" [] [], Node.mk "rect" [] []])
        (some (([1, -2, 5, 0] : List Int).filter (fun i => 0 ≤ i &&
          i < ((subMatches shapeTag
            (Node.mk "svg" [("id", "s")]
              [Node.mk "path" [] [], Node.mk "rect" [] []])).length : Int)))) true).tree ∧
    (applyRandomPathColors ⟨["#abc"], false, true⟩ none none ⟨fun _ => 0, fun _ => false⟩ []
        (Node.mk "svg" [("id", "s")] [Node.mk "path" [] [], Node.mk "rect" [] []])
        (some [1, -2, 5, 0]) true).events.getLast? =
      some (Event.completeEv
        (([1, -2, 5, 0] : List Int).filter (fun i => 0 ≤ i &&
          i < ((subMatches shapeTag
            (Node.mk "svg" [("id", "s")]
              [Node.mk "path" [] [], Node.mk "rect" [] []])).length : Int))).length
        ([1, -2, 5, 0] : List Int).length) :=
  c10_out_of_range_indices_skipped ⟨["#abc"], false, true⟩ none none ⟨fun _ => 0, fun _ => false⟩
    [] (Node.mk "svg" [("id", "s")] [Node.mk "path" [] [], Node.mk "rect" [] []]) [1, -2, 5, 0]
    (by decide)

end SvgSmart
